import Mathlib

/-!
Shallow embedding of `src/main.py` (incremental NGINX-log ingestion engine).

Modelling conventions:
* Python strings are `List Char`; file contents are assumed `'\r'`-free ASCII
  text, where byte offsets and character offsets coincide and text-mode
  universal-newline translation is the identity, so `f.seek`/`f.tell`
  arithmetic is over character counts.
* Machine integers are `Int`/`Nat` (Python integers are unbounded).
* `float` fields are modelled as `ℚ`: every literal the grammar admits is a
  finite decimal, exactly representable, and the code performs no arithmetic
  on them beyond the `or 0.0` defaulting.
* Fallible Python operations return `Except PyError`; an uncaught exception
  aborts the pass.
-/

namespace NginxLogsDB

/-- Python exception kinds that can propagate in this program. -/
inductive PyError
  | valueError | typeError | keyError | storeError | noFilesFound
deriving DecidableEq, Repr

/-- Python `str.isspace` / `str.strip` whitespace (ASCII part). -/
def pyIsSpace (c : Char) : Bool :=
  c = ' ' || c = '\t' || c = '\n' || c = '\r' || c = '\x0b' || c = '\x0c'

/-- Python `str.strip()`: drop whitespace from both ends. -/
def pyStrip (cs : List Char) : List Char :=
  ((cs.dropWhile pyIsSpace).reverse.dropWhile pyIsSpace).reverse

/-- Value of a (non-empty, all-digit) numeral. -/
def digitsToNat (cs : List Char) : Nat :=
  cs.foldl (fun a c => a * 10 + (c.toNat - '0'.toNat)) 0

/-- The sign-and-digits grammar of `int()` applied after stripping:
optional single sign, then a non-empty digit run.  (CPython also accepts `_`
digit grouping, unreachable from the `[\d-]+` capture class.)  `none` models
`ValueError`. -/
def pyIntCore : List Char → Option Int
  | [] => none
  | c :: ds =>
      if c = '-' then
        (if ds ≠ [] ∧ ds.all Char.isDigit then some (-(digitsToNat ds : Int)) else none)
      else if c = '+' then
        (if ds ≠ [] ∧ ds.all Char.isDigit then some (digitsToNat ds : Int) else none)
      else
        (if (c :: ds).all Char.isDigit then some (digitsToNat (c :: ds) : Int) else none)

/-- Python `int(s)`: strip surrounding whitespace, then sign and digits. -/
def pyIntOfString (cs : List Char) : Option Int :=
  pyIntCore (pyStrip cs)

/-- Split a decimal mantissa `cs` at the first `'.'`, if any. -/
def splitDot (cs : List Char) : List Char × Option (List Char) :=
  match cs with
  | [] => ([], none)
  | '.' :: rest => ([], some rest)
  | c :: rest =>
      let (ip, fp) := splitDot rest
      (c :: ip, fp)

/-- Python `float(s)` on the alphabet `[\d.\-]` the capture classes admit:
optional single leading sign, then digits with at most one `'.'` and at least
one digit; everything else raises `ValueError` (`none`).  (`inf`/`nan`/
exponents are unreachable from that alphabet.)  The value is exact in `ℚ`. -/
def pyFloatOfString (cs : List Char) : Option ℚ :=
  let t := pyStrip cs
  let (neg, body) :=
    match t with
    | '-' :: rest => (true, rest)
    | '+' :: rest => (false, rest)
    | rest => (false, rest)
  let (ip, fpOpt) := splitDot body
  let fp := fpOpt.getD []
  if body ≠ [] ∧ ip.all Char.isDigit ∧ fp.all Char.isDigit ∧
      (fpOpt.isSome → ¬ fp.elem '.') ∧ (ip ≠ [] ∨ fp ≠ []) ∧ ip.elem '.' = false then
    let mag : ℚ := mkRat (digitsToNat (ip ++ fp)) (10 ^ fp.length)
    some (if neg then -mag else mag)
  else none

/-- `float(value) if value and value != '-' else None`, with the possible
`ValueError` made explicit (src/main.py line 90-91). -/
def to_nullable_float (value : List Char) : Except PyError (Option ℚ) :=
  if value ≠ [] ∧ value ≠ ['-'] then
    match pyFloatOfString value with
    | some q => .ok (some q)
    | none => .error .valueError
  else .ok none

/-- `int(value) if value and value != '-' else None`, with the possible
`ValueError` made explicit (src/main.py line 93-94). -/
def to_nullable_int (value : List Char) : Except PyError (Option Int) :=
  if value ≠ [] ∧ value ≠ ['-'] then
    match pyIntOfString value with
    | some n => .ok (some n)
    | none => .error .valueError
  else .ok none

/-! ### The LOG_PATTERN regular expression

The pattern (src/main.py lines 32-42) is a plain sequence of literals,
`\s*` gaps, and twelve named single-character-class quantifiers — no
alternation.  We embed it as a list of items and give the items Python's
leftmost / greedy-with-backtracking (`*?` lazy) matching semantics. -/

/-- The twelve named capture groups of `LOG_PATTERN`. -/
inductive GName
  | time_local | host | remote_addr | remote_user | request | status
  | body_bytes_sent | http_referer | http_user_agent | request_time
  | upstream_response_time | gzip_ratio
deriving DecidableEq, Repr

/-- The character classes occurring in `LOG_PATTERN`.  (`\d` is modelled as
ASCII digits; the log lines at issue are ASCII.) -/
inductive CClass
  | notRBracket   -- [^\]]
  | notPipe       -- [^|]
  | anyCh         -- .   (any char except newline)
  | digit         -- \d
  | digitDash     -- [\d-]
  | notQuote      -- [^"]
  | floatChars    -- [\d\.\-]
deriving DecidableEq, Repr

def CClass.test : CClass → Char → Bool
  | .notRBracket, c => c ≠ ']'
  | .notPipe, c => c ≠ '|'
  | .anyCh, c => c ≠ '\n'
  | .digit, c => c.isDigit
  | .digitDash, c => c.isDigit || c = '-'
  | .notQuote, c => c ≠ '"'
  | .floatChars, c => c.isDigit || c = '.' || c = '-'

/-- One item of the (alternation-free) pattern. -/
inductive RItem
  | lit (c : Char)                    -- a literal character
  | wsStar                            -- \s*          (greedy, not captured)
  | plusG (g : GName) (cl : CClass)   -- (?P<g>C+)    (greedy)
  | starG (g : GName) (cl : CClass)   -- (?P<g>C*)    (greedy)
  | starL (g : GName) (cl : CClass)   -- (?P<g>C*?)   (lazy)
deriving DecidableEq, Repr

/-- Length of the longest prefix of `cs` whose chars satisfy `p`
(the most a single-class quantifier can consume). -/
def npfx (p : Char → Bool) : List Char → Nat
  | [] => 0
  | c :: cs => if p c then npfx p cs + 1 else 0

/-- Captured groups, in pattern order. -/
abbrev Caps := List (GName × List Char)

/-- Anchored match of an item sequence against `xs` (Python `re.match`:
anchored at the start, trailing text permitted).  Greedy quantifiers try the
longest repetition first and backtrack; the lazy `*?` tries the shortest
first.  Defined by primitive recursion on the item list (each item is
resolved by choosing its repetition count). -/
def matchItems (items : List RItem) : List Char → Option Caps :=
  List.rec (motive := fun _ => List Char → Option Caps)
    (fun _ => some [])
    (fun item _rest ih xs =>
      match item with
      | .lit c =>
          match xs with
          | [] => none
          | x :: xs' => if x = c then ih xs' else none
      | .wsStar =>
          ((List.range (npfx pyIsSpace xs + 1)).reverse).findSome? fun n =>
            ih (xs.drop n)
      | .plusG g cl =>
          (((List.range (npfx cl.test xs)).reverse).map (· + 1)).findSome? fun n =>
            (ih (xs.drop n)).map fun caps => (g, xs.take n) :: caps
      | .starG g cl =>
          ((List.range (npfx cl.test xs + 1)).reverse).findSome? fun n =>
            (ih (xs.drop n)).map fun caps => (g, xs.take n) :: caps
      | .starL g cl =>
          (List.range (npfx cl.test xs + 1)).findSome? fun n =>
            (ih (xs.drop n)).map fun caps => (g, xs.take n) :: caps)
    items

/-- Literal run helper for spelling the pattern. -/
def litStr (s : String) : List RItem := s.data.map RItem.lit

/-- `LOG_PATTERN` (src/main.py lines 32-42), item by item. -/
def LOG_PATTERN : List RItem :=
  [RItem.lit '[', RItem.plusG .time_local .notRBracket, RItem.lit ']',
   RItem.wsStar, RItem.lit '|', RItem.wsStar,
   RItem.plusG .host .notPipe,
   RItem.wsStar, RItem.lit '|', RItem.wsStar,
   RItem.plusG .remote_addr .notPipe,
   RItem.wsStar, RItem.lit '|', RItem.wsStar,
   RItem.plusG .remote_user .notPipe,
   RItem.wsStar, RItem.lit '|', RItem.wsStar,
   RItem.lit '"', RItem.starL .request .anyCh, RItem.lit '"', RItem.wsStar] ++
  litStr "Status=\"" ++ [RItem.plusG .status .digit, RItem.lit '"', RItem.wsStar] ++
  litStr "BodyBytesSent=\"" ++ [RItem.plusG .body_bytes_sent .digitDash, RItem.lit '"', RItem.wsStar] ++
  litStr "Referer=\"" ++ [RItem.starG .http_referer .notQuote, RItem.lit '"', RItem.wsStar] ++
  litStr "UserAgent=\"" ++ [RItem.starG .http_user_agent .notQuote, RItem.lit '"', RItem.wsStar] ++
  litStr "RequestTime=\"" ++ [RItem.plusG .request_time .floatChars, RItem.lit '"', RItem.wsStar] ++
  litStr "UpstreamResponseTime=\"" ++ [RItem.plusG .upstream_response_time .floatChars, RItem.lit '"', RItem.wsStar] ++
  litStr "GzipRatio=\"" ++ [RItem.plusG .gzip_ratio .floatChars, RItem.lit '"']

/-- `m.groupdict()[g]`: the capture of group `g` (every group of
`LOG_PATTERN` participates in any successful match). -/
def capsGet (caps : Caps) (g : GName) : List Char :=
  (caps.lookup g).getD []

/-- The group an item captures, if any. -/
def capGroup : RItem → Option GName
  | .plusG g _ => some g
  | .starG g _ => some g
  | .starL g _ => some g
  | _ => none

/-- What a successful match guarantees about an item's captured text. -/
def capPred : RItem → List Char → Prop
  | .plusG _ cl, v => v ≠ [] ∧ v.all cl.test = true
  | .starG _ cl, v => v.all cl.test = true
  | .starL _ cl, v => v.all cl.test = true
  | _, _ => False

/-! ### UTF-8 and SHA-1 (`line.encode('utf-8')`, `hashlib.sha1(...).hexdigest()`) -/

/-- UTF-8 encoding of one code point. -/
def utf8EncodeChar (c : Char) : List Nat :=
  let n := c.toNat
  if n < 0x80 then [n]
  else if n < 0x800 then
    [0xC0 ||| (n >>> 6), 0x80 ||| (n &&& 0x3F)]
  else if n < 0x10000 then
    [0xE0 ||| (n >>> 12), 0x80 ||| ((n >>> 6) &&& 0x3F), 0x80 ||| (n &&& 0x3F)]
  else
    [0xF0 ||| (n >>> 18), 0x80 ||| ((n >>> 12) &&& 0x3F),
     0x80 ||| ((n >>> 6) &&& 0x3F), 0x80 ||| (n &&& 0x3F)]

/-- `s.encode('utf-8')` as a byte list. -/
def utf8Bytes (cs : List Char) : List Nat :=
  cs.flatMap utf8EncodeChar

/-- Truncate to a 32-bit word. -/
def w32 (n : Nat) : Nat := n % 4294967296

/-- 32-bit left rotation. -/
def rotl (k x : Nat) : Nat :=
  w32 ((x <<< k) ||| (x >>> (32 - k)))

/-- Big-endian bytes (8 of them) of the 64-bit message bit length. -/
def be64 (n : Nat) : List Nat :=
  [(n >>> 56) &&& 0xFF, (n >>> 48) &&& 0xFF, (n >>> 40) &&& 0xFF, (n >>> 32) &&& 0xFF,
   (n >>> 24) &&& 0xFF, (n >>> 16) &&& 0xFF, (n >>> 8) &&& 0xFF, n &&& 0xFF]

/-- SHA-1 message padding: `0x80`, zeros to 56 mod 64, then the bit length. -/
def sha1Pad (msg : List Nat) : List Nat :=
  let zeros := (120 - ((msg.length + 1) % 64)) % 64
  msg ++ [0x80] ++ List.replicate zeros 0 ++ be64 (8 * msg.length)

/-- Split a list (of length a multiple of 64, as every padded message is)
into its 64-byte chunks. -/
def chunks64 (l : List Nat) : List (List Nat) :=
  (List.range (l.length / 64)).map fun i => (l.drop (64 * i)).take 64

/-- The sixteen big-endian 32-bit words of one 64-byte chunk. -/
def words16 (chunk : List Nat) : List Nat :=
  (List.range 16).map fun i =>
    (chunk.getD (4 * i) 0 <<< 24) ||| (chunk.getD (4 * i + 1) 0 <<< 16) |||
    (chunk.getD (4 * i + 2) 0 <<< 8) ||| chunk.getD (4 * i + 3) 0

/-- Message-schedule extension to 80 words. -/
def sha1Extend (ws : List Nat) : List Nat :=
  (List.range 64).foldl
    (fun acc _ =>
      let l := acc.length
      acc ++ [rotl 1 ((acc.getD (l - 3) 0) ^^^ (acc.getD (l - 8) 0) ^^^
                      (acc.getD (l - 14) 0) ^^^ (acc.getD (l - 16) 0))])
    ws

/-- The SHA-1 round function and constant for round `i`. -/
def sha1FK (i b c d : Nat) : Nat × Nat :=
  if i < 20 then ((b &&& c) ||| ((b ^^^ 0xFFFFFFFF) &&& d), 0x5A827999)
  else if i < 40 then (b ^^^ c ^^^ d, 0x6ED9EBA1)
  else if i < 60 then ((b &&& c) ||| (b &&& d) ||| (c &&& d), 0x8F1BBCDC)
  else (b ^^^ c ^^^ d, 0xCA62C1D6)

/-- Process one 64-byte chunk. -/
def sha1Chunk (h : Nat × Nat × Nat × Nat × Nat) (chunk : List Nat) :
    Nat × Nat × Nat × Nat × Nat :=
  let w := sha1Extend (words16 chunk)
  let (h0, h1, h2, h3, h4) := h
  let (a, b, c, d, e) :=
    (List.range 80).foldl
      (fun (st : Nat × Nat × Nat × Nat × Nat) i =>
        let (a, b, c, d, e) := st
        let (f, k) := sha1FK i b c d
        let temp := w32 (rotl 5 a + f + e + k + w.getD i 0)
        (temp, a, rotl 30 b, c, d))
      (h0, h1, h2, h3, h4)
  (w32 (h0 + a), w32 (h1 + b), w32 (h2 + c), w32 (h3 + d), w32 (h4 + e))

/-- Lowercase hex digit. -/
def hexDigit (n : Nat) : Char :=
  if n < 10 then Char.ofNat ('0'.toNat + n) else Char.ofNat ('a'.toNat + (n - 10))

/-- Eight lowercase hex digits of a 32-bit word. -/
def hex8 (n : Nat) : List Char :=
  (List.range 8).map fun i => hexDigit ((n >>> (4 * (7 - i))) &&& 0xF)

/-- `hashlib.sha1(bytes).hexdigest()`. -/
def sha1hex (msg : List Nat) : List Char :=
  let (h0, h1, h2, h3, h4) :=
    (chunks64 (sha1Pad msg)).foldl sha1Chunk
      (0x67452301, 0xEFCDAB89, 0x98BADCFE, 0x10325476, 0xC3D2E1F0)
  hex8 h0 ++ hex8 h1 ++ hex8 h2 ++ hex8 h3 ++ hex8 h4

/-! ### `datetime.strptime(value, "%d/%b/%Y:%H:%M:%S %z")`

CPython's `_strptime` matches each directive with a regex (`%d`: 1-2 digits
in 1..31; `%b`: case-insensitive month abbreviation; `%Y`: exactly 4 digits;
`%H`: 1-2 digits in 0..23; `%M`: 1-2 digits in 0..59; `%S`: 1-2 digits in
0..61; `%z`: `[+-]HH[:]MM` with optional seconds, or `Z`), requires the whole
string to be consumed, then builds a `datetime`, which additionally rejects
days past the month's end, seconds > 59, and offsets of 24h or more.  Any
failure raises `ValueError`, which the caller catches (`none`). -/

structure PyDateTime where
  year : Nat
  month : Nat
  day : Nat
  hour : Nat
  minute : Nat
  second : Nat
  tzOffSec : Int
deriving DecidableEq, Repr

/-- Read a 1- or 2-digit field in `lo..hi`; longest (2-digit) form first,
exactly as the generated `(hh|h)`-style alternation does. -/
def read2Digit (lo hi : Nat) (cs : List Char) : Option (Nat × List Char) :=
  match cs with
  | c1 :: c2 :: rest =>
      if c1.isDigit && c2.isDigit then
        let v := (c1.toNat - '0'.toNat) * 10 + (c2.toNat - '0'.toNat)
        if lo ≤ v ∧ v ≤ hi then some (v, rest) else none
      else if c1.isDigit then
        let v := c1.toNat - '0'.toNat
        if lo ≤ v ∧ v ≤ hi then some (v, c2 :: rest) else none
      else none
  | [c1] =>
      if c1.isDigit then
        let v := c1.toNat - '0'.toNat
        if lo ≤ v ∧ v ≤ hi then some (v, []) else none
      else none
  | [] => none

def monthAbbrevs : List (List Char) :=
  ["jan".data, "feb".data, "mar".data, "apr".data, "may".data, "jun".data,
   "jul".data, "aug".data, "sep".data, "oct".data, "nov".data, "dec".data]

def lowerChar (c : Char) : Char :=
  if 'A' ≤ c ∧ c ≤ 'Z' then Char.ofNat (c.toNat + 32) else c

/-- Month number from a case-insensitive 3-letter abbreviation prefix. -/
def readMonth (cs : List Char) : Option (Nat × List Char) :=
  let pre := (cs.take 3).map lowerChar
  match monthAbbrevs.indexOf? pre with
  | some i => if cs.length ≥ 3 then some (i + 1, cs.drop 3) else none
  | none => none

def readLit (c : Char) (cs : List Char) : Option (List Char) :=
  match cs with
  | x :: rest => if x = c then some rest else none
  | [] => none

def readYear4 (cs : List Char) : Option (Nat × List Char) :=
  match cs with
  | a :: b :: c :: d :: rest =>
      if a.isDigit && b.isDigit && c.isDigit && d.isDigit then
        some (digitsToNat [a, b, c, d], rest)
      else none
  | _ => none

/-- `%z`: `[+-]\d\d:?\d\d(:?\d\d(\.\d{1,6})?)?` or `Z`; returns offset
seconds (fractional part discarded: it is < 1s and the grammar's lines do
not use it). -/
def readTz (cs : List Char) : Option (Int × List Char) :=
  match cs with
  | 'Z' :: rest => some (0, rest)
  | s :: h1 :: h2 :: rest =>
      if (s = '+' || s = '-') && h1.isDigit && h2.isDigit then
        let rest1 := match rest with | ':' :: r => r | r => r
        match rest1 with
        | m1 :: m2 :: rest2 =>
            if m1.isDigit && m2.isDigit then
              let hh := digitsToNat [h1, h2]
              let mm := digitsToNat [m1, m2]
              let (ss, rest3) :=
                match rest2 with
                | ':' :: a :: b :: r =>
                    if a.isDigit && b.isDigit then (digitsToNat [a, b], r)
                    else (0, rest2)
                | a :: b :: r =>
                    if a.isDigit && b.isDigit then (digitsToNat [a, b], r)
                    else (0, rest2)
                | _ => (0, rest2)
              let total : Int := (hh * 3600 + mm * 60 + ss : Nat)
              some (if s = '-' then -total else total, rest3)
            else none
        | _ => none
      else none
  | _ => none

def isLeap (y : Nat) : Bool :=
  y % 4 = 0 && (y % 100 ≠ 0 || y % 400 = 0)

def daysInMonth (y m : Nat) : Nat :=
  if m = 2 then (if isLeap y then 29 else 28)
  else if m = 4 ∨ m = 6 ∨ m = 9 ∨ m = 11 then 30 else 31

/-- `datetime.strptime(value, "%d/%b/%Y:%H:%M:%S %z")`, `none` = `ValueError`. -/
def strptime_z (cs : List Char) : Option PyDateTime :=
  match read2Digit 1 31 cs with
  | none => none
  | some (day, r1) =>
  match readLit '/' r1 with
  | none => none
  | some r2 =>
  match readMonth r2 with
  | none => none
  | some (month, r3) =>
  match readLit '/' r3 with
  | none => none
  | some r4 =>
  match readYear4 r4 with
  | none => none
  | some (year, r5) =>
  match readLit ':' r5 with
  | none => none
  | some r6 =>
  match read2Digit 0 23 r6 with
  | none => none
  | some (hour, r7) =>
  match readLit ':' r7 with
  | none => none
  | some r8 =>
  match read2Digit 0 59 r8 with
  | none => none
  | some (minute, r9) =>
  match readLit ':' r9 with
  | none => none
  | some r10 =>
  match read2Digit 0 61 r10 with
  | none => none
  | some (second, r11) =>
  match readLit ' ' r11 with
  | none => none
  | some r12 =>
  match readTz r12 with
  | none => none
  | some (off, r13) =>
  -- the full string must be consumed, and datetime() revalidates
  if r13 = [] ∧ day ≤ daysInMonth year month ∧ second ≤ 59 ∧ off.natAbs < 86400 then
    some ⟨year, month, day, hour, minute, second, off⟩
  else none

/-! ### The record normalizer (src/main.py lines 96-126, per line) -/

/-- One row of `nginx_logs` as built in `process_file`. -/
structure LogRecord where
  id : String
  time_local : Option PyDateTime
  host : String
  remote_addr : String
  remote_user : Option String
  request : Option String
  status : Option Int
  body_bytes_sent : Int
  http_referer : Option String
  http_user_agent : Option String
  request_time : ℚ
  upstream_response_time : ℚ
  gzip_ratio : ℚ
deriving DecidableEq, Repr

/-- The `if data.get(fld) == '-': data[fld] = None` collapse
(src/main.py lines 123-126). -/
def dashNull (cs : List Char) : Option String :=
  if cs = ['-'] then none else some (String.mk cs)

/-- `x or 0` / `x or 0.0` on an optional number (`None` and `0` both map
to the default; over `ℚ`/`Int` the two branches agree at `0`). -/
def orZero {α : Type} [Zero α] (o : Option α) : α := o.getD 0

/-- The per-line body of `process_file` (src/main.py lines 100-136) up to the
`INSERT`: strip, match, normalize.  `.ok none` = line skipped (empty or
unmatched, logged only); `.ok (some r)` = record to insert; `.error` = an
uncaught exception aborting the pass (the numeric conversions on lines
118-122 can raise `ValueError`). -/
def processLine (rawLine : List Char) : Except PyError (Option LogRecord) :=
  let line := pyStrip rawLine
  if line = [] then .ok none
  else
    match matchItems LOG_PATTERN line with
    | none => .ok none
    | some caps =>
      let tl := strptime_z (capsGet caps .time_local)
      let uid := sha1hex (utf8Bytes line)
      match to_nullable_int (capsGet caps .status) with
      | .error e => .error e
      | .ok status =>
      match to_nullable_int (capsGet caps .body_bytes_sent) with
      | .error e => .error e
      | .ok bbs =>
      match to_nullable_float (capsGet caps .request_time) with
      | .error e => .error e
      | .ok rt =>
      match to_nullable_float (capsGet caps .upstream_response_time) with
      | .error e => .error e
      | .ok urt =>
      match to_nullable_float (capsGet caps .gzip_ratio) with
      | .error e => .error e
      | .ok gz =>
        .ok (some
          { id := String.mk uid
            time_local := tl
            host := String.mk (capsGet caps .host)
            remote_addr := String.mk (capsGet caps .remote_addr)
            remote_user := dashNull (capsGet caps .remote_user)
            request := dashNull (capsGet caps .request)
            status := status
            body_bytes_sent := orZero bbs
            http_referer := dashNull (capsGet caps .http_referer)
            http_user_agent := dashNull (capsGet caps .http_user_agent)
            request_time := orZero rt
            upstream_response_time := orZero urt
            gzip_ratio := orZero gz })

/-! ### Progress state as JSON (`json.loads` / `json.dumps`)

`load_state` returns whatever `json.loads` produced, unvalidated, so the
driver is modelled over a JSON value type.  JSON numbers are restricted to
integers: the state files this program itself writes only contain integers
and `null`. -/

inductive JVal
  | null
  | num (n : Int)
  | str (s : String)
  | bool (b : Bool)
  | arr (xs : List JVal)
  | obj (fields : List (String × JVal))

/-- Python truthiness of a decoded JSON value. -/
def jTruthy : JVal → Bool
  | .null => false
  | .num n => n ≠ 0
  | .str s => s ≠ ""
  | .bool b => b
  | .arr xs => !xs.isEmpty
  | .obj fs => !fs.isEmpty

/-- Python `==` between a decoded JSON value and an `int`
(`True == 1`, `False == 0`; other types never equal an int). -/
def jEqInt : JVal → Int → Bool
  | .num n, m => n = m
  | .bool b, m => (if b then (1 : Int) else 0) = m
  | _, _ => false

/-- `x is None`. -/
def jIsNull : JVal → Bool
  | .null => true
  | _ => false

/-- `state[k]` on a decoded JSON value: `KeyError` on a dict without the
key, `TypeError` on anything that is not a dict. -/
def jGet (v : JVal) (k : String) : Except PyError JVal :=
  match v with
  | .obj fs =>
      match fs.lookup k with
      | some x => .ok x
      | none => .error .keyError
  | _ => .error .typeError

/-- Dict update: replace the first binding of `k`, else append (Python dicts
keep insertion order). -/
def setAssoc (fs : List (String × JVal)) (k : String) (x : JVal) :
    List (String × JVal) :=
  match fs with
  | [] => [(k, x)]
  | (k', v') :: rest => if k' = k then (k', x) :: rest else (k', v') :: setAssoc rest k x

/-- `state[k] = x`: `TypeError` unless the value is a dict. -/
def jSet (v : JVal) (k : String) (x : JVal) : Except PyError JVal :=
  match v with
  | .obj fs => .ok (.obj (setAssoc fs k x))
  | _ => .error .typeError

/-- An int usable as a file offset (`f.seek` accepts ints and bools —
`True` is the int `1` — and raises `TypeError` otherwise). -/
def jToInt : JVal → Except PyError Int
  | .num n => .ok n
  | .bool b => .ok (if b then 1 else 0)
  | _ => .error .typeError

mutual

/-- `json.dumps` with the default separators (string escaping is not needed
for the keys and values this program stores). -/
def jDump : JVal → String
  | .null => "null"
  | .num n => toString n
  | .str s => "\"" ++ s ++ "\""
  | .bool b => if b then "true" else "false"
  | .arr xs => "[" ++ jDumpList xs ++ "]"
  | .obj fs => "\x7b" ++ jDumpObj fs ++ "\x7d"

def jDumpList : List JVal → String
  | [] => ""
  | [v] => jDump v
  | v :: v' :: rest => jDump v ++ ", " ++ jDumpList (v' :: rest)

def jDumpObj : List (String × JVal) → String
  | [] => ""
  | [(k, v)] => "\"" ++ k ++ "\": " ++ jDump v
  | (k, v) :: f :: rest => "\"" ++ k ++ "\": " ++ jDump v ++ ", " ++ jDumpObj (f :: rest)

end

/-- What reading the state file yields: the file is missing, or its text
does not parse as JSON, or it parses to a value. -/
inductive FileRead
  | missing
  | unparseable
  | parsed (v : JVal)

/-- `{"inode": None, "offset": 0}` (src/main.py line 51). -/
def freshState : JVal := .obj [("inode", .null), ("offset", .num 0)]

/-- `load_state` (src/main.py lines 45-51): missing or unparseable state
resets to fresh (with a logged warning); any parsed value is returned as-is,
unvalidated. -/
def load_state : FileRead → JVal
  | .missing => freshState
  | .unparseable => freshState
  | .parsed v => v

/-! ### The store, the failure script, and `process_file`

The destination store is modelled as the insertion-ordered list of rows of
`nginx_logs`, split into `durable` (committed) and `pending` (inserted in
the open transaction).  Each fallible store operation (connect, execute,
commit) consumes one entry of `failScript` (`true` = the operation raises);
an exhausted script means no failure. -/

structure LogFile where
  inode : Nat
  mtime : Nat
  content : List Char
deriving DecidableEq, Repr

structure World where
  stateFile : FileRead
  durable : List LogRecord
  pending : List LogRecord
  failScript : List Bool

/-- Outcome of the next fallible store operation. -/
def nextFail (w : World) : Bool × World :=
  match w.failScript with
  | [] => (false, w)
  | b :: rest => (b, { w with failScript := rest })

def storeHasId (s : List LogRecord) (i : String) : Bool :=
  s.any fun r => r.id == i

/-- `cur.execute(INSERT ... ON CONFLICT (id) DO NOTHING)` (src/main.py
lines 127-136): rows visible to the conflict check are the committed rows
plus those already inserted in the open transaction; on duplicate id the
statement is a no-op; the call can fail (store failure). -/
def execInsert (r : LogRecord) (w : World) : Except PyError Unit × World :=
  let (b, w1) := nextFail w
  if b then (.error .storeError, w1)
  else
    let dup := storeHasId (w1.durable ++ w1.pending) r.id
    (.ok (), { w1 with pending := if dup then w1.pending else w1.pending ++ [r] })

/-- `conn.commit()`: the pending rows become durable. -/
def dbCommit (w : World) : Except PyError Unit × World :=
  let (b, w1) := nextFail w
  if b then (.error .storeError, w1)
  else (.ok (), { w1 with durable := w1.durable ++ w1.pending, pending := [] })

/-- `psycopg2.connect(**DB_CFG)` (src/main.py lines 56-57): may fail. -/
def get_db_conn (w : World) : Except PyError Unit × World :=
  let (b, w1) := nextFail w
  if b then (.error .storeError, w1) else (.ok (), w1)

/-- `ensure_table_exists` (src/main.py lines 59-78): one execute plus one
commit; no row changes. -/
def ensure_table_exists (w : World) : Except PyError Unit × World :=
  let (b, w1) := nextFail w
  if b then (.error .storeError, w1) else dbCommit w1

/-- Python text-mode line iteration of the remaining file contents: split at
newline characters (the final piece may be empty; every piece is afterwards
stripped, and empty pieces are skipped, so keeping the trailing empty piece
is faithful). -/
def splitNl : List Char → List (List Char)
  | [] => [[]]
  | c :: rest =>
      if c = '\n' then [] :: splitNl rest
      else
        match splitNl rest with
        | l :: ls => (c :: l) :: ls
        | [] => [[c]]

/-- The per-line loop of `process_file`: parse each line and insert each
produced record, stopping at the first uncaught exception.  Returns the
records emitted (passed to `cur.execute`). -/
def processLinesW : List (List Char) → World → Except PyError (List LogRecord) × World
  | [], w => (.ok [], w)
  | l :: ls, w =>
      match processLine l with
      | .error e => (.error e, w)
      | .ok none => processLinesW ls w
      | .ok (some r) =>
          match execInsert r w with
          | (.error e, w1) => (.error e, w1)
          | (.ok _, w1) =>
              match processLinesW ls w1 with
              | (.error e, w2) => (.error e, w2)
              | (.ok rs, w2) => (.ok (r :: rs), w2)

/-- `process_file(path, start_offset, conn)` (src/main.py lines 96-139):
seek (negative offsets raise), read and process every remaining line,
record `f.tell()` (the end of file, or the start offset if it already lies
at or past EOF), commit, and return the emitted records with the new
offset. -/
def process_file (content : List Char) (offset : Int) (w : World) :
    Except PyError (List LogRecord × Int) × World :=
  if offset < 0 then (.error .valueError, w)
  else
    match processLinesW (splitNl (content.drop offset.toNat)) w with
    | (.error e, w1) => (.error e, w1)
    | (.ok rs, w1) =>
        let newOff : Int := max offset (content.length : Int)
        match dbCommit w1 with
        | (.error e, w2) => (.error e, w2)
        | (.ok _, w2) => (.ok (rs, newOff), w2)

/-! ### The ingestion driver (`main`, src/main.py lines 142-166) -/

/-- `select_latest_log` (src/main.py lines 84-88): the glob match with the
greatest mtime (Python's `max` keeps the first maximum); no match is fatal. -/
def select_latest_log (files : List LogFile) : Except PyError LogFile :=
  match files with
  | [] => .error .noFilesFound
  | f :: fs => .ok (fs.foldl (fun best g => if best.mtime < g.mtime then g else best) f)

/-- `save_state` (src/main.py lines 53-54) at pass granularity: after the
write completes, the state file parses back to the written value.  (The
byte-level non-atomicity of the write itself is modelled separately by
`write_text_observable`.) -/
def save_state (st : JVal) (w : World) : World :=
  { w with stateFile := .parsed st }

/-- The `for p in glob.glob(LOG_GLOB)` loop of the rotation block
(src/main.py lines 153-157): drain the first globbed file whose identity
equals the stored one (if any) from the stored offset, recording the old
file's final offset in the state. -/
def rotationDrain (files : List LogFile) (state : JVal) (vInode : JVal)
    (w : World) : Except PyError (List LogRecord × JVal) × World :=
  match files.find? (fun p => jEqInt vInode p.inode) with
  | some p =>
      (match jGet state "offset" with
       | .error e => (.error e, w)
       | .ok vOff =>
       match jToInt vOff with
       | .error e => (.error e, w)
       | .ok off =>
       match process_file p.content off w with
       | (.error e, w1) => (.error e, w1)
       | (.ok (rsOld, newOff), w1) =>
           match jSet state "offset" (.num newOff) with
           | .error e => (.error e, w1)
           | .ok st1 => (.ok (rsOld, st1), w1))
  | none => (.ok ([], state), w)

/-- The rotation block (src/main.py lines 150-159): if a prior identity is
stored, truthy, and differs from the active file's identity, drain the old
file, then point the cursor at the active identity with offset 0 (the old
file's final offset is overwritten — discarded). -/
def rotationStep (files : List LogFile) (state : JVal) (cur_inode : Int)
    (w : World) : Except PyError (List LogRecord × JVal) × World :=
  match jGet state "inode" with
  | .error e => (.error e, w)
  | .ok vInode =>
    if jTruthy vInode && !jEqInt vInode cur_inode then
      match rotationDrain files state vInode w with
      | (.error e, w1) => (.error e, w1)
      | (.ok (rsOld, st1), w1) =>
          -- after the loop: state["inode"] = cur_inode; state["offset"] = 0
          match jSet st1 "inode" (.num cur_inode) with
          | .error e => (.error e, w1)
          | .ok st2 =>
              match jSet st2 "offset" (.num 0) with
              | .error e => (.error e, w1)
              | .ok st3 => (.ok (rsOld, st3), w1)
    else (.ok ([], state), w)

/-- One pass of `main` (src/main.py lines 142-166).  Returns the records
emitted to the store during the pass (old file first, then the active file)
and the final world; an `.error` result models the pass aborting with an
uncaught exception. -/
def mainRun (files : List LogFile) (w0 : World) :
    Except PyError (List LogRecord) × World :=
  let state0 := load_state w0.stateFile
  match get_db_conn w0 with
  | (.error e, w1) => (.error e, w1)
  | (.ok _, w1) =>
  match ensure_table_exists w1 with
  | (.error e, w2) => (.error e, w2)
  | (.ok _, w2) =>
  match select_latest_log files with
  | .error e => (.error e, w2)
  | .ok latest =>
  let cur_inode : Int := latest.inode
  match rotationStep files state0 cur_inode w2 with
  | (.error e, w3) => (.error e, w3)
  | (.ok (rsOld, state1), w3) =>
  -- lines 161-162: if state["inode"] is None: state["inode"] = cur_inode
  match jGet state1 "inode" with
  | .error e => (.error e, w3)
  | .ok vIn2 =>
  match (if jIsNull vIn2 then jSet state1 "inode" (.num cur_inode)
         else .ok state1) with
  | .error e => (.error e, w3)
  | .ok state2 =>
  -- line 164: state["offset"] = process_file(latest, state["offset"], conn)
  match jGet state2 "offset" with
  | .error e => (.error e, w3)
  | .ok vOff2 =>
  match jToInt vOff2 with
  | .error e => (.error e, w3)
  | .ok off2 =>
  match process_file latest.content off2 w3 with
  | (.error e, w4) => (.error e, w4)
  | (.ok (rsNew, newOff), w4) =>
  match jSet state2 "offset" (.num newOff) with
  | .error e => (.error e, w4)
  | .ok state3 =>
  (.ok (rsOld ++ rsNew), save_state state3 w4)

/-! ### Pure parse of a file suffix (the specification-side reading) -/

/-- Parse a list of raw lines into the records they yield, skipping empty
and unmatched lines, or the exception the first crashing line raises. -/
def parseLines : List (List Char) → Except PyError (List LogRecord)
  | [] => .ok []
  | l :: ls =>
      match processLine l with
      | .error e => .error e
      | .ok none => parseLines ls
      | .ok (some r) =>
          match parseLines ls with
          | .error e => .error e
          | .ok rs => .ok (r :: rs)

/-- Every record parsed from the lines of `content` at or after `off`. -/
def parseContent (content : List Char) (off : Nat) : Except PyError (List LogRecord) :=
  parseLines (splitNl (content.drop off))

/-! ### Byte-level model of `save_state`'s write (src/main.py lines 53-54)

`Path.write_text` is `open(path, "w")` followed by one `write`: opening
with mode `"w"` truncates the file, so the contents observable on disk
during the call are the previous text, then the empty truncated file, then
the completed new text.  (A payload larger than one buffer could surface
further proper prefixes of the new text; the empty state alone already
decides the atomicity question.) -/
def write_text_observable (oldContent newContent : String) : List String :=
  [oldContent, "", newContent]

/-- The observable on-disk contents during `save_state(state)`. -/
def save_state_observable (oldContent : String) (st : JVal) : List String :=
  write_text_observable oldContent (jDump st)

/-! ### The store-write specification (`ON CONFLICT (id) DO NOTHING` over
committed rows): insert if the id is absent, otherwise leave the store
unchanged. -/

def writeIns (s : List LogRecord) (r : LogRecord) : List LogRecord :=
  if storeHasId s r.id then s else s ++ [r]

def writeAll (s : List LogRecord) (rs : List LogRecord) : List LogRecord :=
  rs.foldl writeIns s

/-! ### Concrete sample inputs -/

/-- The spec's §8 scenario line, verbatim. -/
def sampleLine : List Char :=
  "[10/Oct/2023:13:55:36 +0000] | example.com | 127.0.0.1 | - | \"GET /x HTTP/1.1\" Status=\"200\" BodyBytesSent=\"1024\" Referer=\"-\" UserAgent=\"curl/7.0\" RequestTime=\"0.002\" UpstreamResponseTime=\"-\" GzipRatio=\"-\"".data

/-- The record `process_file` builds from `sampleLine` (note the captures
`"example.com "`, `"127.0.0.1 "` and `"- "` keep the whitespace before the
`|` separators, and `"- "` is therefore not collapsed to null). -/
def sampleRecord : LogRecord :=
  { id := "e0e4cbc3f73b45e397ce9e8db1d5cf35e867628f"
    time_local := some ⟨2023, 10, 10, 13, 55, 36, 0⟩
    host := "example.com "
    remote_addr := "127.0.0.1 "
    remote_user := some "- "
    request := some "GET /x HTTP/1.1"
    status := some 200
    body_bytes_sent := 1024
    http_referer := none
    http_user_agent := some "curl/7.0"
    request_time := mkRat 1 500
    upstream_response_time := 0
    gzip_ratio := 0 }

/-- The capture mapping of `sampleLine`. -/
def sampleCaps : Caps :=
  [(.time_local, "10/Oct/2023:13:55:36 +0000".data),
   (.host, "example.com ".data),
   (.remote_addr, "127.0.0.1 ".data),
   (.remote_user, "- ".data),
   (.request, "GET /x HTTP/1.1".data),
   (.status, "200".data),
   (.body_bytes_sent, "1024".data),
   (.http_referer, "-".data),
   (.http_user_agent, "curl/7.0".data),
   (.request_time, "0.002".data),
   (.upstream_response_time, "-".data),
   (.gzip_ratio, "-".data)]

/-- `sampleLine` with `BodyBytesSent="--"`: `[\d-]+` matches `--`, but
`int('--')` raises `ValueError`. -/
def badLine : List Char :=
  "[10/Oct/2023:13:55:36 +0000] | example.com | 127.0.0.1 | - | \"GET /x HTTP/1.1\" Status=\"200\" BodyBytesSent=\"--\" Referer=\"-\" UserAgent=\"curl/7.0\" RequestTime=\"0.002\" UpstreamResponseTime=\"-\" GzipRatio=\"-\"".data

/-- `sampleLine` with the placeholder in `Status`: `\d+` cannot match `-`. -/
def statusDashLine : List Char :=
  "[10/Oct/2023:13:55:36 +0000] | example.com | 127.0.0.1 | - | \"GET /x HTTP/1.1\" Status=\"-\" BodyBytesSent=\"1024\" Referer=\"-\" UserAgent=\"curl/7.0\" RequestTime=\"0.002\" UpstreamResponseTime=\"-\" GzipRatio=\"-\"".data

/-- `sampleLine` as it would sit in a file with leading whitespace: the raw
line bytes differ from the stripped line the code hashes. -/
def paddedSampleLine : List Char := "  ".data ++ sampleLine

/-- A world with no state file, an empty store, and no injected failures. -/
def worldEmpty : World := ⟨.missing, [], [], []⟩

/-- A world whose state file holds valid JSON without the expected keys. -/
def worldNoKeys : World := ⟨.parsed (.obj [("foo", .num 1)]), [], [], []⟩

/-- A world whose next store operation (the connect) fails. -/
def worldConnFail : World := ⟨.missing, [], [], [true]⟩

/-- An arbitrary single log file. -/
def fileA : LogFile := ⟨5, 0, "x\n".data⟩

/-- A state-file text used as the pre-existing contents in the atomicity
counterexample. -/
def oldStateText : String := "\x7b\"inode\": 3, \"offset\": 7\x7d"

/-! ## Theorems -/

deriving instance DecidableEq for Except

set_option maxRecDepth 1000000

/-- Evaluation of the normalizer on the spec's §8 scenario line (shared by
several witnesses below). -/
theorem sample_processLine : processLine sampleLine = .ok (some sampleRecord) := by
  decide

/-- The capture mapping the matcher produces on the scenario line. -/
theorem sample_match : matchItems LOG_PATTERN sampleLine = some sampleCaps := by
  decide

/-- `processLine` looks at its input only through `pyStrip`. -/
theorem processLine_congr_strip {l1 l2 : List Char} (h : pyStrip l1 = pyStrip l2) :
    processLine l1 = processLine l2 := by
  unfold processLine
  rw [h]

/-- `jDump` of the fresh state, spelled out. -/
theorem jDump_freshState :
    jDump freshState = "\x7b\"inode\": null, \"offset\": 0\x7d" := by
  simp [freshState, jDump, jDumpObj]
  rfl

/-- **C4** (`code_bug` evidence): the spec promises that no line content can
abort a pass ("parse total function", "skip and continue"), but a line whose
`BodyBytesSent` value is `--` matches `[\d-]+` and then crashes
`int('--')` with an uncaught `ValueError`, aborting the whole pass. -/
theorem numeric_normalization_crash :
    processLine badLine = .error .valueError ∧
    (process_file badLine 0 worldEmpty).1 = .error .valueError := by
  exact ⟨by decide, by decide⟩

/-- **C5** (counterexample): a line whose `Status` value is the placeholder
`-` does not produce a record with null status — it does not match the
grammar at all (`Status="(?P<status>\d+)"` requires digits), so the line is
skipped and yields no record, contrary to the claim that the line still
yields a record with null status. -/
theorem placeholder_status_line_skipped :
    processLine statusDashLine = .ok none := by
  decide

/-- **C6** (counterexample): on the spec's own §8 scenario line the
`remote_user` field carries the placeholder `-` between spaced `|`
separators; the capture is `"- "` (the `[^|]+` class keeps the whitespace
before the pipe), which is not equal to `'-'`, so the code stores
`some "- "` instead of the claimed null. -/
theorem spec_scenario_remote_user_not_nulled :
    processLine sampleLine = .ok (some sampleRecord) ∧
    sampleRecord.remote_user = some "- " :=
  ⟨sample_processLine, rfl⟩

/-- **C7** (counterexample): the persisted id is the SHA-1 of the
*stripped* line, not of the full original raw line bytes: for a raw line
with leading whitespace the record's id differs from the hash of the raw
bytes. -/
theorem id_not_hash_of_raw_line :
    processLine paddedSampleLine = .ok (some sampleRecord) ∧
    sampleRecord.id ≠ String.mk (sha1hex (utf8Bytes paddedSampleLine)) := by
  constructor
  · have h2 : processLine paddedSampleLine = processLine sampleLine :=
      processLine_congr_strip (by decide)
    rw [h2]
    exact sample_processLine
  · decide

/-- **C9** (counterexample): `save_state` writes via `Path.write_text`,
which truncates before writing; between the truncation and the completed
write the state file is observably empty — neither the previous complete
state nor the new complete state, so the write is not atomic. -/
theorem save_state_truncation_window :
    (save_state_observable oldStateText freshState).get? 1 = some "" ∧
    "" ≠ oldStateText ∧ "" ≠ jDump freshState := by
  refine ⟨rfl, by decide, ?_⟩
  rw [jDump_freshState]
  decide

/-- **C9** (amended): every observable on-disk content during
`save_state` is the previous complete text, the new complete text, or the
empty truncated file — the empty intermediate being exactly the
non-atomicity window (the next pass reads it as corrupt and resets to fresh
state). -/
theorem save_state_observable_contents (oldC : String) (st : JVal) (c : String)
    (h : c ∈ save_state_observable oldC st) :
    c = oldC ∨ c = "" ∨ c = jDump st := by
  simp only [save_state_observable, write_text_observable, List.mem_cons,
    List.mem_singleton, List.not_mem_nil, or_false] at h
  tauto

/-- Witness for the amended C9 theorem at a concrete input. -/
theorem save_state_observable_contents_witness :
    "" ∈ save_state_observable oldStateText freshState ∧
    ("" = oldStateText ∨ "" = "" ∨ "" = jDump freshState) :=
  ⟨by simp [save_state_observable, write_text_observable],
   save_state_observable_contents oldStateText freshState ""
     (by simp [save_state_observable, write_text_observable])⟩

/-- **C10**: `load_state` resets to the fresh state exactly on a missing or
unparseable state file; any parsed JSON value is returned unvalidated, and a
state file holding valid JSON without the `inode`/`offset` keys is not
recovered as fresh — the pass fails with a `KeyError` when the key is
accessed. -/
theorem load_state_unvalidated :
    load_state .missing = freshState ∧
    load_state .unparseable = freshState ∧
    (∀ v, load_state (.parsed v) = v) ∧
    (mainRun [fileA] worldNoKeys).1 = .error .keyError :=
  ⟨rfl, rfl, fun _ => rfl, by decide⟩

/-! ### Matcher lemmas: what a successful `LOG_PATTERN` match guarantees -/

theorem matchItems_nil (xs : List Char) : matchItems [] xs = some [] := rfl

theorem matchItems_lit_nil (c : Char) (rest : List RItem) :
    matchItems (RItem.lit c :: rest) [] = none := rfl

theorem matchItems_lit_cons (c : Char) (rest : List RItem) (x : Char) (xs : List Char) :
    matchItems (RItem.lit c :: rest) (x :: xs) =
      (if x = c then matchItems rest xs else none) := rfl

theorem matchItems_ws (rest : List RItem) (xs : List Char) :
    matchItems (RItem.wsStar :: rest) xs =
      ((List.range (npfx pyIsSpace xs + 1)).reverse).findSome? (fun n =>
        matchItems rest (xs.drop n)) := rfl

theorem matchItems_plusG (g : GName) (cl : CClass) (rest : List RItem) (xs : List Char) :
    matchItems (RItem.plusG g cl :: rest) xs =
      (((List.range (npfx cl.test xs)).reverse).map (· + 1)).findSome? (fun n =>
        (matchItems rest (xs.drop n)).map fun caps => (g, xs.take n) :: caps) := rfl

theorem matchItems_starG (g : GName) (cl : CClass) (rest : List RItem) (xs : List Char) :
    matchItems (RItem.starG g cl :: rest) xs =
      ((List.range (npfx cl.test xs + 1)).reverse).findSome? (fun n =>
        (matchItems rest (xs.drop n)).map fun caps => (g, xs.take n) :: caps) := rfl

theorem matchItems_starL (g : GName) (cl : CClass) (rest : List RItem) (xs : List Char) :
    matchItems (RItem.starL g cl :: rest) xs =
      (List.range (npfx cl.test xs + 1)).findSome? (fun n =>
        (matchItems rest (xs.drop n)).map fun caps => (g, xs.take n) :: caps) := rfl

theorem exists_of_findSome {α β : Type} (f : α → Option β) :
    ∀ (l : List α) (b : β), l.findSome? f = some b → ∃ a, a ∈ l ∧ f a = some b := by
  intro l
  induction l with
  | nil => intro b h; simp [List.findSome?_nil] at h
  | cons x xs ih =>
      intro b h
      cases hfx : f x with
      | some y =>
          have hx : (x :: xs).findSome? f = some y := by
            rw [List.findSome?_cons, hfx]
          rw [hx] at h
          cases h
          exact ⟨x, List.mem_cons_self x xs, hfx⟩
      | none =>
          have hx : (x :: xs).findSome? f = xs.findSome? f := by
            rw [List.findSome?_cons, hfx]
          rw [hx] at h
          obtain ⟨a, ha, hfa⟩ := ih b h
          exact ⟨a, List.mem_cons_of_mem _ ha, hfa⟩

theorem npfx_le_length (p : Char → Bool) : ∀ xs : List Char, npfx p xs ≤ xs.length := by
  intro xs
  induction xs with
  | nil => simp [npfx]
  | cons c cs ih =>
      unfold npfx
      split
      · simpa using ih
      · simp

theorem take_all_of_le_npfx (p : Char → Bool) :
    ∀ (xs : List Char) (n : Nat), n ≤ npfx p xs → (xs.take n).all p = true := by
  intro xs
  induction xs with
  | nil => intro n _; simp
  | cons c cs ih =>
      intro n h
      cases n with
      | zero => simp
      | succ m =>
          unfold npfx at h
          by_cases hc : p c
          · rw [if_pos hc] at h
            simp only [List.take_succ_cons, List.all_cons, hc, Bool.true_and]
            exact ih m (Nat.le_of_succ_le_succ h)
          · rw [if_neg hc] at h
            exact absurd h (by omega)

/-- Every capture of a successful match obeys its item's character class,
and `+`-captures are non-empty. -/
theorem matchItems_sound :
    ∀ (items : List RItem) (xs : List Char) (caps : Caps),
      matchItems items xs = some caps →
      ∀ g v, (g, v) ∈ caps →
        ∃ it, it ∈ items ∧ capGroup it = some g ∧ capPred it v := by
  intro items
  induction items with
  | nil =>
      intro xs caps h g v hmem
      rw [matchItems_nil] at h
      cases h
      simp at hmem
  | cons it rest ih =>
      intro xs caps h g v hmem
      cases it with
      | lit c =>
          cases xs with
          | nil => rw [matchItems_lit_nil] at h; simp at h
          | cons x xs' =>
              rw [matchItems_lit_cons] at h
              by_cases hx : x = c
              · rw [if_pos hx] at h
                obtain ⟨it', hit', hg, hp⟩ := ih xs' caps h g v hmem
                exact ⟨it', List.mem_cons_of_mem _ hit', hg, hp⟩
              · rw [if_neg hx] at h
                simp at h
      | wsStar =>
          rw [matchItems_ws] at h
          obtain ⟨n, _, hm⟩ := exists_of_findSome _ _ _ h
          obtain ⟨it', hit', hg, hp⟩ := ih _ caps hm g v hmem
          exact ⟨it', List.mem_cons_of_mem _ hit', hg, hp⟩
      | plusG g' cl =>
          rw [matchItems_plusG] at h
          obtain ⟨n, hn, hm⟩ := exists_of_findSome _ _ _ h
          rw [Option.map_eq_some'] at hm
          obtain ⟨caps', hc', hcaps⟩ := hm
          subst hcaps
          have hn' : 1 ≤ n ∧ n ≤ npfx cl.test xs := by
            simp only [List.mem_map, List.mem_reverse, List.mem_range] at hn
            obtain ⟨m, hm', rfl⟩ := hn
            omega
          rcases List.mem_cons.mp hmem with hmem | hmem
          · injection hmem with h1 h2
            subst h1
            subst h2
            refine ⟨RItem.plusG _ cl, List.mem_cons_self _ _, rfl, ?_, ?_⟩
            · have hlen : (xs.take n).length = n := by
                rw [List.length_take]
                have := npfx_le_length cl.test xs
                omega
              intro he
              rw [he] at hlen
              simp at hlen
              omega
            · exact take_all_of_le_npfx cl.test xs n hn'.2
          · obtain ⟨it', hit', hg, hp⟩ := ih _ caps' hc' g v hmem
            exact ⟨it', List.mem_cons_of_mem _ hit', hg, hp⟩
      | starG g' cl =>
          rw [matchItems_starG] at h
          obtain ⟨n, hn, hm⟩ := exists_of_findSome _ _ _ h
          rw [Option.map_eq_some'] at hm
          obtain ⟨caps', hc', hcaps⟩ := hm
          subst hcaps
          have hn' : n ≤ npfx cl.test xs := by
            simp only [List.mem_reverse, List.mem_range] at hn
            omega
          rcases List.mem_cons.mp hmem with hmem | hmem
          · injection hmem with h1 h2
            subst h1
            subst h2
            exact ⟨RItem.starG _ cl, List.mem_cons_self _ _, rfl,
              take_all_of_le_npfx cl.test xs n hn'⟩
          · obtain ⟨it', hit', hg, hp⟩ := ih _ caps' hc' g v hmem
            exact ⟨it', List.mem_cons_of_mem _ hit', hg, hp⟩
      | starL g' cl =>
          rw [matchItems_starL] at h
          obtain ⟨n, hn, hm⟩ := exists_of_findSome _ _ _ h
          rw [Option.map_eq_some'] at hm
          obtain ⟨caps', hc', hcaps⟩ := hm
          subst hcaps
          have hn' : n ≤ npfx cl.test xs := by
            simp only [List.mem_range] at hn
            omega
          rcases List.mem_cons.mp hmem with hmem | hmem
          · injection hmem with h1 h2
            subst h1
            subst h2
            exact ⟨RItem.starL _ cl, List.mem_cons_self _ _, rfl,
              take_all_of_le_npfx cl.test xs n hn'⟩
          · obtain ⟨it', hit', hg, hp⟩ := ih _ caps' hc' g v hmem
            exact ⟨it', List.mem_cons_of_mem _ hit', hg, hp⟩

/-- The keys of the capture mapping are exactly the pattern's groups. -/
theorem matchItems_keys :
    ∀ (items : List RItem) (xs : List Char) (caps : Caps),
      matchItems items xs = some caps →
      caps.map Prod.fst = items.filterMap capGroup := by
  intro items
  induction items with
  | nil =>
      intro xs caps h
      rw [matchItems_nil] at h
      cases h
      rfl
  | cons it rest ih =>
      intro xs caps h
      cases it with
      | lit c =>
          cases xs with
          | nil => rw [matchItems_lit_nil] at h; simp at h
          | cons x xs' =>
              rw [matchItems_lit_cons] at h
              by_cases hx : x = c
              · rw [if_pos hx] at h
                rw [ih xs' caps h]
                simp [capGroup]
              · rw [if_neg hx] at h
                simp at h
      | wsStar =>
          rw [matchItems_ws] at h
          obtain ⟨n, _, hm⟩ := exists_of_findSome _ _ _ h
          rw [ih _ caps hm]
          simp [capGroup]
      | plusG g' cl =>
          rw [matchItems_plusG] at h
          obtain ⟨n, _, hm⟩ := exists_of_findSome _ _ _ h
          rw [Option.map_eq_some'] at hm
          obtain ⟨caps', hc', hcaps⟩ := hm
          subst hcaps
          simp only [List.map_cons, List.filterMap_cons]
          rw [ih _ caps' hc']
          simp [capGroup]
      | starG g' cl =>
          rw [matchItems_starG] at h
          obtain ⟨n, _, hm⟩ := exists_of_findSome _ _ _ h
          rw [Option.map_eq_some'] at hm
          obtain ⟨caps', hc', hcaps⟩ := hm
          subst hcaps
          simp only [List.map_cons, List.filterMap_cons]
          rw [ih _ caps' hc']
          simp [capGroup]
      | starL g' cl =>
          rw [matchItems_starL] at h
          obtain ⟨n, _, hm⟩ := exists_of_findSome _ _ _ h
          rw [Option.map_eq_some'] at hm
          obtain ⟨caps', hc', hcaps⟩ := hm
          subst hcaps
          simp only [List.map_cons, List.filterMap_cons]
          rw [ih _ caps' hc']
          simp [capGroup]

theorem lookup_mem {g : GName} {v : List Char} :
    ∀ {caps : Caps}, caps.lookup g = some v → (g, v) ∈ caps := by
  intro caps
  induction caps with
  | nil => intro h; simp [List.lookup] at h
  | cons kv rest ih =>
      obtain ⟨k, b⟩ := kv
      intro h
      rw [List.lookup] at h
      split at h
      · rename_i heq
        cases h
        have hg : g = k := by simpa using heq
        subst hg
        exact List.mem_cons_self _ _
      · exact List.mem_cons_of_mem _ (ih h)

theorem lookup_of_key_mem {g : GName} :
    ∀ {caps : Caps}, g ∈ caps.map Prod.fst → ∃ v, caps.lookup g = some v := by
  intro caps
  induction caps with
  | nil => intro h; simp at h
  | cons kv rest ih =>
      obtain ⟨k, b⟩ := kv
      intro h
      by_cases hgk : g = k
      · subst hgk
        refine ⟨b, ?_⟩
        rw [List.lookup]
        have hb : (g == g) = true := by simp
        rw [hb]
      · have h1 : g ∈ rest.map Prod.fst := by
          rcases List.mem_cons.mp h with h2 | h2
          · exact absurd h2 hgk
          · exact h2
        obtain ⟨v, hv⟩ := ih h1
        refine ⟨v, ?_⟩
        rw [List.lookup]
        have hb : (g == k) = false := by simpa using hgk
        rw [hb]
        exact hv

/-- In a successful `LOG_PATTERN` match, the `status` capture is a
non-empty digit string (the `\d+` group). -/
theorem status_capture_digits {xs : List Char} {caps : Caps}
    (h : matchItems LOG_PATTERN xs = some caps) :
    capsGet caps .status ≠ [] ∧ (capsGet caps .status).all Char.isDigit = true := by
  have hkeys := matchItems_keys LOG_PATTERN xs caps h
  have hmem : GName.status ∈ caps.map Prod.fst := by
    rw [hkeys]
    decide
  obtain ⟨v, hv⟩ := lookup_of_key_mem hmem
  have hvmem : (GName.status, v) ∈ caps := lookup_mem hv
  obtain ⟨it, hit, hg, hp⟩ := matchItems_sound LOG_PATTERN xs caps h _ _ hvmem
  have hall : LOG_PATTERN.all
      (fun it => !(capGroup it == some GName.status) ||
        (it == RItem.plusG GName.status CClass.digit)) = true := by decide
  have hb := List.all_eq_true.mp hall it hit
  rw [hg] at hb
  simp at hb
  subst hb
  obtain ⟨hne, hdig⟩ := hp
  have hcg : capsGet caps GName.status = v := by
    unfold capsGet
    rw [hv]
    rfl
  rw [hcg]
  exact ⟨hne, by simpa [CClass.test] using hdig⟩

/-! ### Digit strings convert cleanly through `int()` -/

theorem digit_not_space {c : Char} (h : c.isDigit = true) : pyIsSpace c = false := by
  by_contra hc
  rw [Bool.not_eq_false] at hc
  unfold pyIsSpace at hc
  simp only [Bool.or_eq_true, decide_eq_true_eq] at hc
  rcases hc with ((((e | e) | e) | e) | e) | e <;>
    (subst e; exact absurd h (by decide))

theorem pyStrip_of_no_space {l : List Char} (h : ∀ c ∈ l, pyIsSpace c = false) :
    pyStrip l = l := by
  unfold pyStrip
  have h1 : l.dropWhile pyIsSpace = l := by
    cases l with
    | nil => rfl
    | cons c cs =>
        rw [List.dropWhile_cons, h c (List.mem_cons_self _ _)]
        simp
  rw [h1]
  have h2 : l.reverse.dropWhile pyIsSpace = l.reverse := by
    cases hr : l.reverse with
    | nil => rfl
    | cons c cs =>
        have hc : c ∈ l := by
          rw [← List.mem_reverse, hr]
          exact List.mem_cons_self _ _
        rw [List.dropWhile_cons, h c hc]
        simp
  rw [h2, List.reverse_reverse]

theorem pyIntOfString_digits {v : List Char} (h1 : v ≠ [])
    (h2 : v.all Char.isDigit = true) :
    pyIntOfString v = some (digitsToNat v : Int) := by
  have hstrip : pyStrip v = v :=
    pyStrip_of_no_space fun c hc => digit_not_space (List.all_eq_true.mp h2 c hc)
  unfold pyIntOfString
  rw [hstrip]
  cases v with
  | nil => exact absurd rfl h1
  | cons c cs =>
      have hc : c.isDigit = true := List.all_eq_true.mp h2 c (List.mem_cons_self _ _)
      have hcd : c ≠ '-' := fun e => by subst e; exact absurd hc (by decide)
      have hcp : c ≠ '+' := fun e => by subst e; exact absurd hc (by decide)
      show pyIntCore (c :: cs) = _
      simp only [pyIntCore]
      rw [if_neg hcd, if_neg hcp, if_pos h2]

theorem to_nullable_int_digits {v : List Char} (h1 : v ≠ [])
    (h2 : v.all Char.isDigit = true) :
    to_nullable_int v = .ok (some (digitsToNat v : Int)) := by
  have hd : v ≠ ['-'] := by
    intro e
    subst e
    exact absurd (List.all_eq_true.mp h2 '-' (List.mem_cons_self _ _)) (by decide)
  unfold to_nullable_int
  rw [if_pos ⟨h1, hd⟩, pyIntOfString_digits h1 h2]

/-! ### Shape of any record `processLine` produces -/

theorem dashNull_eq_none_iff (cs : List Char) : dashNull cs = none ↔ cs = ['-'] := by
  unfold dashNull
  split <;> simp_all

/-- Extracting the construction of a produced record: the match that
succeeded, the id, and the field normalizations. -/
theorem processLine_ok_elim {l : List Char} {r : LogRecord}
    (h : processLine l = .ok (some r)) :
    ∃ caps, matchItems LOG_PATTERN (pyStrip l) = some caps ∧
      r.id = String.mk (sha1hex (utf8Bytes (pyStrip l))) ∧
      to_nullable_int (capsGet caps .status) = .ok r.status ∧
      r.remote_user = dashNull (capsGet caps .remote_user) ∧
      r.request = dashNull (capsGet caps .request) ∧
      r.http_referer = dashNull (capsGet caps .http_referer) ∧
      r.http_user_agent = dashNull (capsGet caps .http_user_agent) := by
  simp only [processLine] at h
  split at h
  · simp at h
  · split at h
    · simp at h
    · rename_i caps hcaps
      split at h
      · simp at h
      · rename_i st hst
        split at h
        · simp at h
        · rename_i bbs hbbs
          split at h
          · simp at h
          · rename_i rt hrt
            split at h
            · simp at h
            · rename_i urt hurt
              split at h
              · simp at h
              · rename_i gz hgz
                simp only [Except.ok.injEq, Option.some.injEq] at h
                subst h
                exact ⟨caps, hcaps, rfl, hst, rfl, rfl, rfl, rfl⟩

/-- **C5** (amended): a line whose `Status` carries the placeholder (or
lacks digits) never matches the grammar — it yields no record at all (see
the counterexample) — and on every line that does match, `status` is a
parsed integer, never null and never defaulted. -/
theorem matched_line_status_never_null (l : List Char) (r : LogRecord)
    (h : processLine l = .ok (some r)) : r.status.isSome = true := by
  obtain ⟨caps, hm, _, hst, _⟩ := processLine_ok_elim h
  obtain ⟨hne, hdig⟩ := status_capture_digits hm
  rw [to_nullable_int_digits hne hdig] at hst
  injection hst with hst
  rw [← hst]
  rfl

/-- Witness for the amended C5 theorem on the spec's scenario line. -/
theorem matched_line_status_never_null_witness :
    processLine sampleLine = Except.ok (some sampleRecord) ∧
    sampleRecord.status.isSome = true :=
  ⟨sample_processLine,
   matched_line_status_never_null sampleLine sampleRecord sample_processLine⟩

/-- **C6** (amended): the placeholder collapse compares the captured string
with the exact one-character string `-`: a matched line's `remote_user`,
`request`, `Referer` or `UserAgent` field is null in the record if and only
if its capture is exactly `-`.  In particular a dash surrounded by
whitespace before a `|` separator (captured as `"- "`) and an empty capture
are stored as non-null strings, not collapsed to null. -/
theorem null_iff_capture_is_exact_dash (l : List Char) (caps : Caps) (r : LogRecord)
    (hm : matchItems LOG_PATTERN (pyStrip l) = some caps)
    (h : processLine l = .ok (some r)) :
    (r.remote_user = none ↔ capsGet caps .remote_user = ['-']) ∧
    (r.request = none ↔ capsGet caps .request = ['-']) ∧
    (r.http_referer = none ↔ capsGet caps .http_referer = ['-']) ∧
    (r.http_user_agent = none ↔ capsGet caps .http_user_agent = ['-']) := by
  obtain ⟨caps', hm', _, _, hru, hrq, hrf, hua⟩ := processLine_ok_elim h
  rw [hm] at hm'
  cases hm'
  rw [hru, hrq, hrf, hua]
  exact ⟨dashNull_eq_none_iff _, dashNull_eq_none_iff _,
    dashNull_eq_none_iff _, dashNull_eq_none_iff _⟩

/-- Witness for the amended C6 theorem on the spec's scenario line. -/
theorem null_iff_capture_is_exact_dash_witness :
    matchItems LOG_PATTERN (pyStrip sampleLine) = some sampleCaps ∧
    processLine sampleLine = Except.ok (some sampleRecord) ∧
    ((sampleRecord.remote_user = none ↔ capsGet sampleCaps .remote_user = ['-']) ∧
     (sampleRecord.request = none ↔ capsGet sampleCaps .request = ['-']) ∧
     (sampleRecord.http_referer = none ↔ capsGet sampleCaps .http_referer = ['-']) ∧
     (sampleRecord.http_user_agent = none ↔ capsGet sampleCaps .http_user_agent = ['-'])) :=
  ⟨by decide, sample_processLine,
   null_iff_capture_is_exact_dash sampleLine sampleCaps sampleRecord (by decide)
     sample_processLine⟩

/-- **C7** (amended): the persisted id is the SHA-1 hex digest of the UTF-8
bytes of the *whitespace-stripped* line; consequently the whole record
depends only on the stripped line, so raw lines that differ only in
surrounding whitespace produce identical records (and collapse in the
store), while the id is not in general the hash of the raw line bytes (see
the counterexample). -/
theorem id_is_hash_of_stripped_line (l1 l2 : List Char) (r : LogRecord)
    (h12 : pyStrip l1 = pyStrip l2) (h1 : processLine l1 = .ok (some r)) :
    processLine l2 = .ok (some r) ∧
    r.id = String.mk (sha1hex (utf8Bytes (pyStrip l1))) := by
  constructor
  · rw [← processLine_congr_strip h12]
    exact h1
  · obtain ⟨_, _, hid, _⟩ := processLine_ok_elim h1
    exact hid

/-- Witness for the amended C7 theorem: the scenario line with and without
leading whitespace. -/
theorem id_is_hash_of_stripped_line_witness :
    pyStrip sampleLine = pyStrip paddedSampleLine ∧
    processLine sampleLine = Except.ok (some sampleRecord) ∧
    (processLine paddedSampleLine = Except.ok (some sampleRecord) ∧
     sampleRecord.id = String.mk (sha1hex (utf8Bytes (pyStrip sampleLine)))) :=
  ⟨by decide, sample_processLine,
   id_is_hash_of_stripped_line sampleLine paddedSampleLine sampleRecord (by decide)
     sample_processLine⟩

/-! ### Runs without injected store failures are the pure parse plus
`writeAll` -/

theorem nextFail_nil {w : World} (h : w.failScript = []) : nextFail w = (false, w) := by
  unfold nextFail
  rw [h]

theorem execInsert_nil {w : World} (h : w.failScript = []) (r : LogRecord) :
    execInsert r w = (.ok (), { w with pending :=
      (if storeHasId (w.durable ++ w.pending) r.id then w.pending
       else w.pending ++ [r]) }) := by
  simp only [execInsert, nextFail_nil h]
  rfl

theorem dbCommit_nil {w : World} (h : w.failScript = []) :
    dbCommit w = (.ok (), { w with durable := w.durable ++ w.pending, pending := [] }) := by
  simp only [dbCommit, nextFail_nil h]
  rfl

theorem writeAll_nil (s : List LogRecord) : writeAll s [] = s := rfl

theorem writeAll_cons (s : List LogRecord) (r : LogRecord) (rs : List LogRecord) :
    writeAll s (r :: rs) = writeAll (writeIns s r) rs := rfl

theorem processLinesW_ok :
    ∀ (ls : List (List Char)) (w : World) (rs : List LogRecord),
      w.failScript = [] → parseLines ls = .ok rs →
      ∃ p', processLinesW ls w = (.ok rs, { w with pending := p' }) ∧
        w.durable ++ p' = writeAll (w.durable ++ w.pending) rs := by
  intro ls
  induction ls with
  | nil =>
      intro w rs hs hp
      simp only [parseLines, Except.ok.injEq] at hp
      subst hp
      exact ⟨w.pending, rfl, rfl⟩
  | cons l ls ih =>
      intro w rs hs hp
      simp only [parseLines] at hp
      cases hpl : processLine l with
      | error e => rw [hpl] at hp; simp at hp
      | ok o =>
          rw [hpl] at hp
          cases o with
          | none =>
              simp only [] at hp
              obtain ⟨p', h1, h2⟩ := ih w rs hs hp
              refine ⟨p', ?_, h2⟩
              simp only [processLinesW, hpl]
              exact h1
          | some r =>
              cases hpls : parseLines ls with
              | error e => rw [hpls] at hp; simp at hp
              | ok rs' =>
                  rw [hpls] at hp
                  simp only [Except.ok.injEq] at hp
                  subst hp
                  have hw1 := execInsert_nil hs r
                  obtain ⟨p', h1, h2⟩ :=
                    ih { w with pending :=
                          (if storeHasId (w.durable ++ w.pending) r.id then w.pending
                           else w.pending ++ [r]) } rs' hs hpls
                  refine ⟨p', ?_, ?_⟩
                  · simp only [processLinesW, hpl, hw1, h1]
                  · rw [writeAll_cons]
                    have key : writeIns (w.durable ++ w.pending) r =
                        w.durable ++ (if storeHasId (w.durable ++ w.pending) r.id
                          then w.pending else w.pending ++ [r]) := by
                      unfold writeIns
                      by_cases hdup : storeHasId (w.durable ++ w.pending) r.id
                      · rw [if_pos hdup, if_pos hdup]
                      · rw [if_neg hdup, if_neg hdup, List.append_assoc]
                    rw [key]
                    exact h2

theorem process_file_ok (content : List Char) (off : Int) (w : World)
    (rs : List LogRecord)
    (hs : w.failScript = []) (h0 : 0 ≤ off)
    (hp : parseContent content off.toNat = .ok rs) :
    ∃ d', process_file content off w =
      ((.ok (rs, max off (content.length : Int))),
       { w with durable := d', pending := [] }) ∧
      d' = writeAll (w.durable ++ w.pending) rs := by
  obtain ⟨p', h1, h2⟩ := processLinesW_ok _ w rs hs hp
  refine ⟨w.durable ++ p', ?_, h2⟩
  unfold process_file
  rw [if_neg (by omega)]
  rw [h1]
  have hc := dbCommit_nil (w := { w with pending := p' }) hs
  simp only [hc]

/-! ### The store write is insert-if-absent and ingestion is idempotent -/

theorem storeHasId_append_left {s : List LogRecord} {i : String}
    (h : storeHasId s i = true) (t : List LogRecord) :
    storeHasId (s ++ t) i = true := by
  unfold storeHasId at h ⊢
  rw [List.any_append, h]
  rfl

theorem storeHasId_writeIns_mono {s : List LogRecord} {i : String}
    (h : storeHasId s i = true) (r : LogRecord) :
    storeHasId (writeIns s r) i = true := by
  unfold writeIns
  split
  · exact h
  · exact storeHasId_append_left h _

theorem storeHasId_writeAll_mono {i : String} :
    ∀ (rs : List LogRecord) {s : List LogRecord},
      storeHasId s i = true → storeHasId (writeAll s rs) i = true := by
  intro rs
  induction rs with
  | nil => intro s h; exact h
  | cons x xs ih =>
      intro s h
      rw [writeAll_cons]
      exact ih (storeHasId_writeIns_mono h x)

theorem writeIns_self_mem (s : List LogRecord) (r : LogRecord) :
    storeHasId (writeIns s r) r.id = true := by
  unfold writeIns
  split
  · assumption
  · unfold storeHasId
    rw [List.any_append]
    simp [storeHasId, List.any_cons]

theorem writeAll_has_ids (s : List LogRecord) :
    ∀ (rs : List LogRecord), ∀ r ∈ rs, storeHasId (writeAll s rs) r.id = true := by
  intro rs
  induction rs generalizing s with
  | nil => intro r hr; simp at hr
  | cons x xs ih =>
      intro r hr
      rw [writeAll_cons]
      rcases List.mem_cons.mp hr with hr | hr
      · subst hr
        exact storeHasId_writeAll_mono xs (writeIns_self_mem s r)
      · exact ih (writeIns s x) r hr

theorem writeIns_noop {s : List LogRecord} {r : LogRecord}
    (h : storeHasId s r.id = true) : writeIns s r = s := by
  unfold writeIns
  rw [if_pos h]

theorem writeAll_noop {s : List LogRecord} :
    ∀ {rs : List LogRecord}, (∀ r ∈ rs, storeHasId s r.id = true) →
      writeAll s rs = s := by
  intro rs
  induction rs with
  | nil => intro _; rfl
  | cons x xs ih =>
      intro h
      rw [writeAll_cons, writeIns_noop (h x (List.mem_cons_self _ _))]
      exact ih fun r hr => h r (List.mem_cons_of_mem _ hr)

theorem writeAll_idem (s : List LogRecord) (rs : List LogRecord) :
    writeAll (writeAll s rs) rs = writeAll s rs :=
  writeAll_noop fun r hr => writeAll_has_ids s rs r hr

/-- **C2**: running `process_file` twice over the same content from the same
offset (no store failures) returns the same result and leaves the committed
rows unchanged — the second pass's inserts are all no-ops — because the
store write is insert-if-absent on `id`: a write whose id is already present
leaves the store unchanged (never overwrites) and only ever appends
otherwise (never errors: it is a total function). -/
theorem ingest_twice_idempotent (content : List Char) (off : Int) (w : World)
    (rs : List LogRecord)
    (hs : w.failScript = []) (h0 : 0 ≤ off)
    (hp : parseContent content off.toNat = .ok rs) :
    (process_file content off ((process_file content off w).2)).1
      = (process_file content off w).1 ∧
    (process_file content off ((process_file content off w).2)).2.durable
      = (process_file content off w).2.durable ∧
    (∀ s r, storeHasId s r.id = true → writeIns s r = s) ∧
    (∀ s r, ∃ t, writeIns s r = s ++ t) := by
  obtain ⟨d', h1, h2⟩ := process_file_ok content off w rs hs h0 hp
  obtain ⟨d2, h3, h4⟩ := process_file_ok content off
    { w with durable := d', pending := [] } rs hs h0 hp
  have hd2 : d2 = d' := by
    rw [h4, h2]
    rw [List.append_nil]
    exact writeAll_idem _ _
  rw [h1]
  rw [h3, hd2]
  refine ⟨rfl, rfl, fun s r h => writeIns_noop h, fun s r => ?_⟩
  unfold writeIns
  split
  · exact ⟨[], by rw [List.append_nil]⟩
  · exact ⟨[r], rfl⟩

/-- `parseContent` on the scenario line as a one-line file. -/
theorem sample_parseContent :
    parseContent sampleLine (0 : Int).toNat = .ok [sampleRecord] := by
  have h1 : splitNl (sampleLine.drop (0 : Int).toNat) = [sampleLine] := by decide
  unfold parseContent
  rw [h1]
  simp only [parseLines, sample_processLine]

/-- Witness for C2 at the scenario line. -/
theorem ingest_twice_idempotent_witness :
    worldEmpty.failScript = [] ∧ (0 : Int) ≤ 0 ∧
    parseContent sampleLine (0 : Int).toNat = .ok [sampleRecord] ∧
    ((process_file sampleLine 0 ((process_file sampleLine 0 worldEmpty).2)).1
        = (process_file sampleLine 0 worldEmpty).1 ∧
      (process_file sampleLine 0 ((process_file sampleLine 0 worldEmpty).2)).2.durable
        = (process_file sampleLine 0 worldEmpty).2.durable ∧
      (∀ s r, storeHasId s r.id = true → writeIns s r = s) ∧
      (∀ s r, ∃ t, writeIns s r = s ++ t)) :=
  ⟨rfl, by decide, sample_parseContent,
   ingest_twice_idempotent sampleLine 0 worldEmpty [sampleRecord] rfl (by decide)
     sample_parseContent⟩

/-- **C8**: a read pass is forward-only — the returned offset is at least
the starting offset — and a pass with no new bytes (start at or past EOF)
returns the offset unchanged and emits zero records. -/
theorem read_pass_offset_monotone (content : List Char) (off : Int) (w : World)
    (rs : List LogRecord) (noff : Int) (w' : World)
    (h : process_file content off w = (.ok (rs, noff), w')) :
    off ≤ noff ∧ ((content.length : Int) ≤ off → noff = off ∧ rs = []) := by
  unfold process_file at h
  split at h
  · simp at h
  · rename_i hneg
    split at h
    · simp at h
    · rename_i rs1 w1 hpw
      split at h
      · simp at h
      · rename_i w2 hcommit
        simp only [Prod.mk.injEq, Except.ok.injEq] at h
        obtain ⟨⟨hrs, hoff⟩, _⟩ := h
        subst hrs
        constructor
        · rw [← hoff]
          exact le_max_left _ _
        · intro hlen
          constructor
          · rw [← hoff]
            exact max_eq_left hlen
          · have hdrop : content.drop off.toNat = [] :=
              List.drop_eq_nil_of_le (by omega)
            rw [hdrop] at hpw
            have : processLinesW (splitNl []) w = ((.ok []), w) := rfl
            rw [this] at hpw
            simp only [Prod.mk.injEq, Except.ok.injEq] at hpw
            exact hpw.1.symm

/-- Witness for C8: starting past EOF returns the offset unchanged with no
records. -/
theorem read_pass_offset_monotone_witness :
    process_file "ab".data 5 worldEmpty = (Except.ok (([] : List LogRecord), 5), worldEmpty) ∧
    ((5 : Int) ≤ 5 ∧ ((("ab".data.length : Int) ≤ 5) →
      (5 : Int) = 5 ∧ ([] : List LogRecord) = [])) :=
  ⟨rfl,
   read_pass_offset_monotone "ab".data 5 worldEmpty [] 5 worldEmpty rfl⟩

/-! ### Frame lemmas: no operation before `save_state` touches the state
file, and the committed rows only ever grow -/

theorem nextFail_frame (w : World) :
    (nextFail w).2.stateFile = w.stateFile ∧ (nextFail w).2.durable = w.durable ∧
    (nextFail w).2.pending = w.pending := by
  cases h : w.failScript <;> simp [nextFail, h]

theorem execInsert_frame (r : LogRecord) (w : World) :
    (execInsert r w).2.stateFile = w.stateFile ∧
    (execInsert r w).2.durable = w.durable ∧
    (∃ t, (execInsert r w).2.pending = w.pending ++ t) := by
  cases hfs : w.failScript with
  | nil =>
      simp only [execInsert, nextFail, hfs]
      refine ⟨rfl, rfl, ?_⟩
      show ∃ t, (if storeHasId (w.durable ++ w.pending) r.id = true
        then w.pending else w.pending ++ [r]) = w.pending ++ t
      split
      · exact ⟨[], by simp⟩
      · exact ⟨[r], rfl⟩
  | cons b rest =>
      cases b
      · simp only [execInsert, nextFail, hfs]
        refine ⟨rfl, rfl, ?_⟩
        show ∃ t, (if storeHasId (w.durable ++ w.pending) r.id = true
          then w.pending else w.pending ++ [r]) = w.pending ++ t
        split
        · exact ⟨[], by simp⟩
        · exact ⟨[r], rfl⟩
      · simp only [execInsert, nextFail, hfs]
        exact ⟨rfl, rfl, [], by simp⟩

theorem dbCommit_frame (w : World) :
    (dbCommit w).2.stateFile = w.stateFile ∧
    (∃ t, (dbCommit w).2.durable = w.durable ++ t) := by
  cases hfs : w.failScript with
  | nil =>
      simp only [dbCommit, nextFail, hfs]
      exact ⟨rfl, w.pending, rfl⟩
  | cons b rest =>
      cases b
      · simp only [dbCommit, nextFail, hfs]
        exact ⟨rfl, w.pending, rfl⟩
      · simp only [dbCommit, nextFail, hfs]
        exact ⟨rfl, [], by simp⟩

theorem get_db_conn_frame (w : World) :
    (get_db_conn w).2.stateFile = w.stateFile ∧
    (get_db_conn w).2.durable = w.durable := by
  cases hfs : w.failScript with
  | nil =>
      simp only [get_db_conn, nextFail, hfs]
      exact ⟨rfl, rfl⟩
  | cons b rest =>
      cases b <;> simp only [get_db_conn, nextFail, hfs] <;> exact ⟨rfl, rfl⟩

theorem ensure_table_frame (w : World) :
    (ensure_table_exists w).2.stateFile = w.stateFile ∧
    (∃ t, (ensure_table_exists w).2.durable = w.durable ++ t) := by
  cases hfs : w.failScript with
  | nil =>
      simp only [ensure_table_exists, nextFail, hfs]
      exact dbCommit_frame w
  | cons b rest =>
      cases b
      · simp only [ensure_table_exists, nextFail, hfs]
        obtain ⟨g1, t, g2⟩ := dbCommit_frame { w with failScript := rest }
        exact ⟨g1, t, g2⟩
      · simp only [ensure_table_exists, nextFail, hfs]
        exact ⟨rfl, [], by simp⟩

theorem processLinesW_frame :
    ∀ (ls : List (List Char)) (w : World),
      (processLinesW ls w).2.stateFile = w.stateFile ∧
      (processLinesW ls w).2.durable = w.durable ∧
      (∃ t, (processLinesW ls w).2.pending = w.pending ++ t) := by
  intro ls
  induction ls with
  | nil =>
      intro w
      have heq : processLinesW [] w = ((.ok []), w) := rfl
      rw [heq]
      exact ⟨rfl, rfl, [], by rw [List.append_nil]⟩
  | cons l ls ih =>
      intro w
      cases hpl : processLine l with
      | error e =>
          have heq : processLinesW (l :: ls) w = ((.error e), w) := by
            simp only [processLinesW, hpl]
          rw [heq]
          exact ⟨rfl, rfl, [], by rw [List.append_nil]⟩
      | ok o =>
          cases o with
          | none =>
              have heq : processLinesW (l :: ls) w = processLinesW ls w := by
                simp only [processLinesW, hpl]
              rw [heq]
              exact ih w
          | some r =>
              obtain ⟨e1, e2, t1, e3⟩ := execInsert_frame r w
              cases hei : execInsert r w with
              | mk res wA =>
                  rw [hei] at e1 e2 e3
                  cases res with
                  | error e =>
                      have heq : processLinesW (l :: ls) w = ((.error e), wA) := by
                        simp only [processLinesW, hpl, hei]
                      rw [heq]
                      exact ⟨e1, e2, t1, e3⟩
                  | ok u =>
                      obtain ⟨f1, f2, t2, f3⟩ := ih wA
                      cases hplw : processLinesW ls wA with
                      | mk res2 wB =>
                          rw [hplw] at f1 f2 f3
                          cases res2 with
                          | error e =>
                              have heq : processLinesW (l :: ls) w = ((.error e), wB) := by
                                simp only [processLinesW, hpl, hei, hplw]
                              rw [heq]
                              exact ⟨f1.trans e1, f2.trans e2, t1 ++ t2,
                                by rw [f3, e3, List.append_assoc]⟩
                          | ok rs =>
                              have heq : processLinesW (l :: ls) w = (.ok (r :: rs), wB) := by
                                simp only [processLinesW, hpl, hei, hplw]
                              rw [heq]
                              exact ⟨f1.trans e1, f2.trans e2, t1 ++ t2,
                                by rw [f3, e3, List.append_assoc]⟩

theorem process_file_frame (content : List Char) (off : Int) (w : World) :
    (process_file content off w).2.stateFile = w.stateFile ∧
    (∃ t, (process_file content off w).2.durable = w.durable ++ t) := by
  by_cases hneg : off < 0
  · have heq : process_file content off w = ((.error .valueError), w) := by
      simp only [process_file, if_pos hneg]
    rw [heq]
    exact ⟨rfl, [], by rw [List.append_nil]⟩
  · obtain ⟨p1, p2, t1, p3⟩ := processLinesW_frame (splitNl (content.drop off.toNat)) w
    cases hplw : processLinesW (splitNl (content.drop off.toNat)) w with
    | mk res w1 =>
        rw [hplw] at p1 p2 p3
        cases res with
        | error e =>
            have heq : process_file content off w = ((.error e), w1) := by
              simp only [process_file, if_neg hneg, hplw]
            rw [heq]
            exact ⟨p1, [], by rw [List.append_nil]; exact p2⟩
        | ok rs =>
            obtain ⟨c1, t2, c2⟩ := dbCommit_frame w1
            cases hc : dbCommit w1 with
            | mk res2 w2 =>
                rw [hc] at c1 c2
                cases res2 with
                | error e =>
                    have heq : process_file content off w = ((.error e), w2) := by
                      simp only [process_file, if_neg hneg, hplw, hc]
                    rw [heq]
                    exact ⟨c1.trans p1, t2, by rw [c2, p2]⟩
                | ok u =>
                    have heq : process_file content off w =
                        ((.ok (rs, max off (content.length : Int))), w2) := by
                      simp only [process_file, if_neg hneg, hplw, hc]
                    rw [heq]
                    exact ⟨c1.trans p1, t2, by rw [c2, p2]⟩

theorem storeHasId_after_ins (s p : List LogRecord) (r : LogRecord) :
    storeHasId (s ++ (if storeHasId (s ++ p) r.id = true then p else p ++ [r]))
      r.id = true := by
  split
  · assumption
  · rw [← List.append_assoc]
    unfold storeHasId
    rw [List.any_append]
    have hr : List.any [r] (fun x => x.id == r.id) = true := by simp
    rw [hr, Bool.or_true]

theorem execInsert_ok_ids {r : LogRecord} {w : World} {u : Unit} {w1 : World}
    (h : execInsert r w = (.ok u, w1)) :
    storeHasId (w1.durable ++ w1.pending) r.id = true := by
  cases hfs : w.failScript with
  | nil =>
      simp [execInsert, nextFail, hfs] at h
      subst h
      exact storeHasId_after_ins w.durable w.pending r
  | cons b rest =>
      cases b
      · simp [execInsert, nextFail, hfs] at h
        subst h
        exact storeHasId_after_ins w.durable w.pending r
      · simp [execInsert, nextFail, hfs] at h

theorem dbCommit_ok {w : World} {u : Unit} {w1 : World}
    (h : dbCommit w = (.ok u, w1)) :
    w1.durable = w.durable ++ w.pending ∧ w1.stateFile = w.stateFile := by
  cases hfs : w.failScript with
  | nil =>
      simp [dbCommit, nextFail, hfs] at h
      subst h
      exact ⟨rfl, rfl⟩
  | cons b rest =>
      cases b
      · simp [dbCommit, nextFail, hfs] at h
        subst h
        exact ⟨rfl, rfl⟩
      · simp [dbCommit, nextFail, hfs] at h

theorem processLinesW_ids :
    ∀ (ls : List (List Char)) (w : World) (rs : List LogRecord) (w1 : World),
      processLinesW ls w = (.ok rs, w1) →
      ∀ r ∈ rs, storeHasId (w1.durable ++ w1.pending) r.id = true := by
  intro ls
  induction ls with
  | nil =>
      intro w rs w1 h r hr
      have heq : processLinesW [] w = ((.ok []), w) := rfl
      rw [heq] at h
      simp only [Prod.mk.injEq, Except.ok.injEq] at h
      obtain ⟨hrs, _⟩ := h
      subst hrs
      simp at hr
  | cons l ls ih =>
      intro w rs w1 h r hr
      cases hpl : processLine l with
      | error e =>
          have heq : processLinesW (l :: ls) w = ((.error e), w) := by
            simp only [processLinesW, hpl]
          rw [heq] at h
          simp at h
      | ok o =>
          cases o with
          | none =>
              have heq : processLinesW (l :: ls) w = processLinesW ls w := by
                simp only [processLinesW, hpl]
              rw [heq] at h
              exact ih w rs w1 h r hr
          | some r' =>
              cases hei : execInsert r' w with
              | mk res wA =>
                  cases res with
                  | error e =>
                      have heq : processLinesW (l :: ls) w = ((.error e), wA) := by
                        simp only [processLinesW, hpl, hei]
                      rw [heq] at h
                      simp at h
                  | ok u =>
                      cases hplw : processLinesW ls wA with
                      | mk res2 wB =>
                          cases res2 with
                          | error e =>
                              have heq : processLinesW (l :: ls) w = ((.error e), wB) := by
                                simp only [processLinesW, hpl, hei, hplw]
                              rw [heq] at h
                              simp at h
                          | ok rs' =>
                              have heq : processLinesW (l :: ls) w =
                                  (.ok (r' :: rs'), wB) := by
                                simp only [processLinesW, hpl, hei, hplw]
                              rw [heq] at h
                              simp only [Prod.mk.injEq, Except.ok.injEq] at h
                              obtain ⟨hrs, hw⟩ := h
                              subst hrs
                              subst hw
                              rcases List.mem_cons.mp hr with hr | hr
                              · subst hr
                                have h1 := execInsert_ok_ids hei
                                obtain ⟨f1, f2, t2, f3⟩ := processLinesW_frame ls wA
                                rw [hplw] at f2 f3
                                rw [f2, f3, ← List.append_assoc]
                                exact storeHasId_append_left h1 t2
                              · exact ih wA rs' wB hplw r hr

theorem process_file_ids {content : List Char} {off : Int} {w : World}
    {rs : List LogRecord} {n : Int} {w' : World}
    (h : process_file content off w = (.ok (rs, n), w')) :
    ∀ r ∈ rs, storeHasId w'.durable r.id = true := by
  unfold process_file at h
  split at h
  · simp at h
  · split at h
    · simp at h
    · rename_i rs1 w1 hplw
      split at h
      · simp at h
      · rename_i w2 hc
        simp only [Prod.mk.injEq, Except.ok.injEq] at h
        obtain ⟨⟨hrs, _⟩, hw⟩ := h
        subst hrs
        subst hw
        intro r hr
        have h1 := processLinesW_ids _ _ _ _ hplw r hr
        obtain ⟨hd, _⟩ := dbCommit_ok hc
        rw [hd]
        exact h1

theorem rotationDrain_frame (files : List LogFile) (st vInode : JVal) (w : World) :
    (rotationDrain files st vInode w).2.stateFile = w.stateFile ∧
    (∃ t, (rotationDrain files st vInode w).2.durable = w.durable ++ t) := by
  cases hfind : files.find? (fun p => jEqInt vInode p.inode) with
  | none =>
      have heq : rotationDrain files st vInode w = (.ok ([], st), w) := by
        simp only [rotationDrain, hfind]
      rw [heq]
      exact ⟨rfl, [], by rw [List.append_nil]⟩
  | some p =>
      cases hgo : jGet st "offset" with
      | error e =>
          have heq : rotationDrain files st vInode w = ((.error e), w) := by
            simp only [rotationDrain, hfind, hgo]
          rw [heq]
          exact ⟨rfl, [], by rw [List.append_nil]⟩
      | ok vOff =>
          cases hti : jToInt vOff with
          | error e =>
              have heq : rotationDrain files st vInode w = ((.error e), w) := by
                simp only [rotationDrain, hfind, hgo, hti]
              rw [heq]
              exact ⟨rfl, [], by rw [List.append_nil]⟩
          | ok off =>
              obtain ⟨p1, t1, p2⟩ := process_file_frame p.content off w
              cases hpf : process_file p.content off w with
              | mk res w1 =>
                  rw [hpf] at p1 p2
                  cases res with
                  | error e =>
                      have heq : rotationDrain files st vInode w = ((.error e), w1) := by
                        simp only [rotationDrain, hfind, hgo, hti, hpf]
                      rw [heq]
                      exact ⟨p1, t1, p2⟩
                  | ok v =>
                      obtain ⟨rsOld, newOff⟩ := v
                      cases hso : jSet st "offset" (.num newOff) with
                      | error e =>
                          have heq : rotationDrain files st vInode w = ((.error e), w1) := by
                            simp only [rotationDrain, hfind, hgo, hti, hpf, hso]
                          rw [heq]
                          exact ⟨p1, t1, p2⟩
                      | ok st1 =>
                          have heq : rotationDrain files st vInode w =
                              (.ok (rsOld, st1), w1) := by
                            simp only [rotationDrain, hfind, hgo, hti, hpf, hso]
                          rw [heq]
                          exact ⟨p1, t1, p2⟩

theorem rotationDrain_ids {files : List LogFile} {st vInode : JVal} {w : World}
    {rsOld : List LogRecord} {st1 : JVal} {w1 : World}
    (h : rotationDrain files st vInode w = (.ok (rsOld, st1), w1)) :
    ∀ r ∈ rsOld, storeHasId w1.durable r.id = true := by
  cases hfind : files.find? (fun p => jEqInt vInode p.inode) with
  | none =>
      have heq : rotationDrain files st vInode w = (.ok ([], st), w) := by
        simp only [rotationDrain, hfind]
      rw [heq] at h
      simp only [Prod.mk.injEq, Except.ok.injEq] at h
      obtain ⟨⟨hrs, _⟩, hw⟩ := h
      subst hrs
      subst hw
      intro r hr
      simp at hr
  | some p =>
      cases hgo : jGet st "offset" with
      | error e =>
          have heq : rotationDrain files st vInode w = ((.error e), w) := by
            simp only [rotationDrain, hfind, hgo]
          rw [heq] at h
          simp at h
      | ok vOff =>
          cases hti : jToInt vOff with
          | error e =>
              have heq : rotationDrain files st vInode w = ((.error e), w) := by
                simp only [rotationDrain, hfind, hgo, hti]
              rw [heq] at h
              simp at h
          | ok off =>
              cases hpf : process_file p.content off w with
              | mk res wA =>
                  cases res with
                  | error e =>
                      have heq : rotationDrain files st vInode w = ((.error e), wA) := by
                        simp only [rotationDrain, hfind, hgo, hti, hpf]
                      rw [heq] at h
                      simp at h
                  | ok v =>
                      obtain ⟨rs', newOff⟩ := v
                      cases hso : jSet st "offset" (.num newOff) with
                      | error e =>
                          have heq : rotationDrain files st vInode w = ((.error e), wA) := by
                            simp only [rotationDrain, hfind, hgo, hti, hpf, hso]
                          rw [heq] at h
                          simp at h
                      | ok stB =>
                          have heq : rotationDrain files st vInode w =
                              (.ok (rs', stB), wA) := by
                            simp only [rotationDrain, hfind, hgo, hti, hpf, hso]
                          rw [heq] at h
                          simp only [Prod.mk.injEq, Except.ok.injEq] at h
                          obtain ⟨⟨hrs, _⟩, hw⟩ := h
                          subst hrs
                          subst hw
                          exact process_file_ids hpf

theorem rotationStep_frame (files : List LogFile) (st : JVal) (cur : Int) (w : World) :
    (rotationStep files st cur w).2.stateFile = w.stateFile ∧
    (∃ t, (rotationStep files st cur w).2.durable = w.durable ++ t) := by
  cases hgi : jGet st "inode" with
  | error e =>
      have heq : rotationStep files st cur w = ((.error e), w) := by
        simp only [rotationStep, hgi]
      rw [heq]
      exact ⟨rfl, [], by rw [List.append_nil]⟩
  | ok vInode =>
      by_cases hcond : (jTruthy vInode && !jEqInt vInode cur) = true
      · obtain ⟨d1, t, d2⟩ := rotationDrain_frame files st vInode w
        cases hd : rotationDrain files st vInode w with
        | mk res w1 =>
            rw [hd] at d1 d2
            cases res with
            | error e =>
                have heq : rotationStep files st cur w = ((.error e), w1) := by
                  simp only [rotationStep, hgi, if_pos hcond, hd]
                rw [heq]
                exact ⟨d1, t, d2⟩
            | ok v =>
                obtain ⟨rsOld, st1⟩ := v
                cases hsi : jSet st1 "inode" (.num cur) with
                | error e =>
                    have heq : rotationStep files st cur w = ((.error e), w1) := by
                      simp only [rotationStep, hgi, if_pos hcond, hd, hsi]
                    rw [heq]
                    exact ⟨d1, t, d2⟩
                | ok st2 =>
                    cases hso : jSet st2 "offset" (.num 0) with
                    | error e =>
                        have heq : rotationStep files st cur w = ((.error e), w1) := by
                          simp only [rotationStep, hgi, if_pos hcond, hd, hsi, hso]
                        rw [heq]
                        exact ⟨d1, t, d2⟩
                    | ok st3 =>
                        have heq : rotationStep files st cur w =
                            (.ok (rsOld, st3), w1) := by
                          simp only [rotationStep, hgi, if_pos hcond, hd, hsi, hso]
                        rw [heq]
                        exact ⟨d1, t, d2⟩
      · have heq : rotationStep files st cur w = (.ok ([], st), w) := by
          simp only [rotationStep, hgi, if_neg hcond]
        rw [heq]
        exact ⟨rfl, [], by rw [List.append_nil]⟩

theorem rotationStep_ok_ids {files : List LogFile} {st : JVal} {cur : Int}
    {w : World} {rsOld : List LogRecord} {st1 : JVal} {w1 : World}
    (h : rotationStep files st cur w = (.ok (rsOld, st1), w1)) :
    ∀ r ∈ rsOld, storeHasId w1.durable r.id = true := by
  cases hgi : jGet st "inode" with
  | error e =>
      have heq : rotationStep files st cur w = ((.error e), w) := by
        simp only [rotationStep, hgi]
      rw [heq] at h
      simp at h
  | ok vInode =>
      by_cases hcond : (jTruthy vInode && !jEqInt vInode cur) = true
      · cases hd : rotationDrain files st vInode w with
        | mk res wA =>
            cases res with
            | error e =>
                have heq : rotationStep files st cur w = ((.error e), wA) := by
                  simp only [rotationStep, hgi, if_pos hcond, hd]
                rw [heq] at h
                simp at h
            | ok v =>
                obtain ⟨rs', stA⟩ := v
                cases hsi : jSet stA "inode" (.num cur) with
                | error e =>
                    have heq : rotationStep files st cur w = ((.error e), wA) := by
                      simp only [rotationStep, hgi, if_pos hcond, hd, hsi]
                    rw [heq] at h
                    simp at h
                | ok st2 =>
                    cases hso : jSet st2 "offset" (.num 0) with
                    | error e =>
                        have heq : rotationStep files st cur w = ((.error e), wA) := by
                          simp only [rotationStep, hgi, if_pos hcond, hd, hsi, hso]
                        rw [heq] at h
                        simp at h
                    | ok st3 =>
                        have heq : rotationStep files st cur w =
                            (.ok (rs', st3), wA) := by
                          simp only [rotationStep, hgi, if_pos hcond, hd, hsi, hso]
                        rw [heq] at h
                        simp only [Prod.mk.injEq, Except.ok.injEq] at h
                        obtain ⟨⟨hrs, _⟩, hw⟩ := h
                        subst hrs
                        subst hw
                        exact rotationDrain_ids hd
      · have heq : rotationStep files st cur w = (.ok ([], st), w) := by
          simp only [rotationStep, hgi, if_neg hcond]
        rw [heq] at h
        simp only [Prod.mk.injEq, Except.ok.injEq] at h
        obtain ⟨⟨hrs, _⟩, hw⟩ := h
        subst hrs
        subst hw
        intro r hr
        simp at hr

/-- **C3**: if a pass aborts with an error (in particular any store write,
commit, or connect failure), the state file is left exactly as it was — the
checkpoint is not persisted; and when the pass does complete (`save_state`
runs), every record emitted during the pass has an id present among the
durable (committed) rows of the store. -/
theorem pass_checkpoint_safety (files : List LogFile) (w : World)
    (res : Except PyError (List LogRecord)) (w' : World)
    (h : mainRun files w = (res, w')) :
    (∀ e, res = .error e → w'.stateFile = w.stateFile) ∧
    (∀ rs, res = .ok rs → ∀ r ∈ rs, storeHasId w'.durable r.id = true) := by
  obtain ⟨g1, g2⟩ := get_db_conn_frame w
  cases hconn : get_db_conn w with
  | mk resC w1 =>
  rw [hconn] at g1 g2
  cases resC with
  | error e =>
      have heq : mainRun files w = ((.error e), w1) := by
        simp only [mainRun, hconn]
      rw [heq] at h
      simp only [Prod.mk.injEq] at h
      obtain ⟨hres, hw⟩ := h
      subst hres
      subst hw
      exact ⟨fun _ _ => g1, fun rs hrs => by simp at hrs⟩
  | ok u1 =>
  obtain ⟨e1, te, e2⟩ := ensure_table_frame w1
  cases htab : ensure_table_exists w1 with
  | mk resT w2 =>
  rw [htab] at e1 e2
  cases resT with
  | error e =>
      have heq : mainRun files w = ((.error e), w2) := by
        simp only [mainRun, hconn, htab]
      rw [heq] at h
      simp only [Prod.mk.injEq] at h
      obtain ⟨hres, hw⟩ := h
      subst hres
      subst hw
      exact ⟨fun _ _ => e1.trans g1, fun rs hrs => by simp at hrs⟩
  | ok u2 =>
  cases hsel : select_latest_log files with
  | error e =>
      have heq : mainRun files w = ((.error e), w2) := by
        simp only [mainRun, hconn, htab, hsel]
      rw [heq] at h
      simp only [Prod.mk.injEq] at h
      obtain ⟨hres, hw⟩ := h
      subst hres
      subst hw
      exact ⟨fun _ _ => e1.trans g1, fun rs hrs => by simp at hrs⟩
  | ok latest =>
  obtain ⟨r1, tr, r2⟩ := rotationStep_frame files (load_state w.stateFile)
    (↑latest.inode) w2
  cases hrot : rotationStep files (load_state w.stateFile) (↑latest.inode) w2 with
  | mk resR w3 =>
  rw [hrot] at r1 r2
  cases resR with
  | error e =>
      have heq : mainRun files w = ((.error e), w3) := by
        simp only [mainRun, hconn, htab, hsel, hrot]
      rw [heq] at h
      simp only [Prod.mk.injEq] at h
      obtain ⟨hres, hw⟩ := h
      subst hres
      subst hw
      exact ⟨fun _ _ => r1.trans (e1.trans g1), fun rs hrs => by simp at hrs⟩
  | ok v =>
  obtain ⟨rsOld, state1⟩ := v
  cases hgi : jGet state1 "inode" with
  | error e =>
      have heq : mainRun files w = ((.error e), w3) := by
        simp only [mainRun, hconn, htab, hsel, hrot, hgi]
      rw [heq] at h
      simp only [Prod.mk.injEq] at h
      obtain ⟨hres, hw⟩ := h
      subst hres
      subst hw
      exact ⟨fun _ _ => r1.trans (e1.trans g1), fun rs hrs => by simp at hrs⟩
  | ok vIn2 =>
  cases hfix : (if jIsNull vIn2 then jSet state1 "inode" (.num (↑latest.inode))
      else .ok state1) with
  | error e =>
      have heq : mainRun files w = ((.error e), w3) := by
        simp only [mainRun, hconn, htab, hsel, hrot, hgi, hfix]
      rw [heq] at h
      simp only [Prod.mk.injEq] at h
      obtain ⟨hres, hw⟩ := h
      subst hres
      subst hw
      exact ⟨fun _ _ => r1.trans (e1.trans g1), fun rs hrs => by simp at hrs⟩
  | ok state2 =>
  cases hgo : jGet state2 "offset" with
  | error e =>
      have heq : mainRun files w = ((.error e), w3) := by
        simp only [mainRun, hconn, htab, hsel, hrot, hgi, hfix, hgo]
      rw [heq] at h
      simp only [Prod.mk.injEq] at h
      obtain ⟨hres, hw⟩ := h
      subst hres
      subst hw
      exact ⟨fun _ _ => r1.trans (e1.trans g1), fun rs hrs => by simp at hrs⟩
  | ok vOff2 =>
  cases hti : jToInt vOff2 with
  | error e =>
      have heq : mainRun files w = ((.error e), w3) := by
        simp only [mainRun, hconn, htab, hsel, hrot, hgi, hfix, hgo, hti]
      rw [heq] at h
      simp only [Prod.mk.injEq] at h
      obtain ⟨hres, hw⟩ := h
      subst hres
      subst hw
      exact ⟨fun _ _ => r1.trans (e1.trans g1), fun rs hrs => by simp at hrs⟩
  | ok off2 =>
  obtain ⟨f1, tf, f2⟩ := process_file_frame latest.content off2 w3
  cases hpf : process_file latest.content off2 w3 with
  | mk resF w4 =>
  rw [hpf] at f1 f2
  cases resF with
  | error e =>
      have heq : mainRun files w = ((.error e), w4) := by
        simp only [mainRun, hconn, htab, hsel, hrot, hgi, hfix, hgo, hti, hpf]
      rw [heq] at h
      simp only [Prod.mk.injEq] at h
      obtain ⟨hres, hw⟩ := h
      subst hres
      subst hw
      exact ⟨fun _ _ => f1.trans (r1.trans (e1.trans g1)),
        fun rs hrs => by simp at hrs⟩
  | ok v2 =>
  obtain ⟨rsNew, newOff⟩ := v2
  cases hso : jSet state2 "offset" (.num newOff) with
  | error e =>
      have heq : mainRun files w = ((.error e), w4) := by
        simp only [mainRun, hconn, htab, hsel, hrot, hgi, hfix, hgo, hti, hpf, hso]
      rw [heq] at h
      simp only [Prod.mk.injEq] at h
      obtain ⟨hres, hw⟩ := h
      subst hres
      subst hw
      exact ⟨fun _ _ => f1.trans (r1.trans (e1.trans g1)),
        fun rs hrs => by simp at hrs⟩
  | ok state3 =>
      have heq : mainRun files w = (.ok (rsOld ++ rsNew), save_state state3 w4) := by
        simp only [mainRun, hconn, htab, hsel, hrot, hgi, hfix, hgo, hti, hpf, hso]
      rw [heq] at h
      simp only [Prod.mk.injEq] at h
      obtain ⟨hres, hw⟩ := h
      subst hres
      subst hw
      constructor
      · intro e he
        simp at he
      · intro rs hrs r hr
        have hrs2 : rs = rsOld ++ rsNew := by
          simpa using hrs.symm
        subst hrs2
        show storeHasId (save_state state3 w4).durable r.id = true
        have hsd : (save_state state3 w4).durable = w4.durable := rfl
        rw [hsd]
        rcases List.mem_append.mp hr with hr | hr
        · have hold := rotationStep_ok_ids hrot r hr
          rw [f2]
          exact storeHasId_append_left hold tf
        · exact process_file_ids hpf r hr

/-- Witness for C3: a failing connect aborts the pass and leaves the state
file untouched. -/
theorem pass_checkpoint_safety_witness :
    mainRun [fileA] worldConnFail =
      (Except.error PyError.storeError, { worldConnFail with failScript := ([] : List Bool) }) ∧
    ({ worldConnFail with failScript := ([] : List Bool) } : World).stateFile
      = worldConnFail.stateFile :=
  ⟨rfl, (pass_checkpoint_safety [fileA] worldConnFail _ _ rfl).1 PyError.storeError rfl⟩

/-! ### The rotation pass, computed under its intended conditions -/

theorem jGet_inode (x y : JVal) :
    jGet (.obj [("inode", x), ("offset", y)]) "inode" = .ok x := rfl

theorem jGet_offset (x y : JVal) :
    jGet (.obj [("inode", x), ("offset", y)]) "offset" = .ok y := rfl

theorem jSet_inode (x y z : JVal) :
    jSet (.obj [("inode", x), ("offset", y)]) "inode" z =
      .ok (.obj [("inode", z), ("offset", y)]) := rfl

theorem jSet_offset (x y z : JVal) :
    jSet (.obj [("inode", x), ("offset", y)]) "offset" z =
      .ok (.obj [("inode", x), ("offset", z)]) := rfl

theorem get_db_conn_nil {w : World} (h : w.failScript = []) :
    get_db_conn w = (.ok (), w) := by
  simp only [get_db_conn, nextFail_nil h]
  rfl

theorem ensure_table_nil {w : World} (h : w.failScript = []) :
    ensure_table_exists w =
      (.ok (), { w with durable := w.durable ++ w.pending, pending := [] }) := by
  simp only [ensure_table_exists, nextFail_nil h, dbCommit_nil h]
  rfl

theorem rotationDrain_run (files : List LogFile) (old : LogFile) (w : World)
    (i off : Int) (rsOld : List LogRecord)
    (hs : w.failScript = [])
    (hfind : files.find? (fun p => jEqInt (.num i) (↑p.inode)) = some old)
    (hoff : 0 ≤ off)
    (hp : parseContent old.content off.toNat = .ok rsOld) :
    rotationDrain files (.obj [("inode", .num i), ("offset", .num off)]) (.num i) w =
      (.ok (rsOld, .obj [("inode", .num i),
        ("offset", .num (max off (old.content.length : Int)))]),
       { w with durable := writeAll (w.durable ++ w.pending) rsOld, pending := [] }) := by
  obtain ⟨d', hpf, hd⟩ := process_file_ok old.content off w rsOld hs hoff hp
  subst hd
  simp only [rotationDrain, hfind, jGet_offset, jToInt, hpf, jSet_offset]

theorem rotationStep_rot (files : List LogFile) (old : LogFile) (w : World)
    (i off cur : Int) (rsOld : List LogRecord)
    (hs : w.failScript = [])
    (hi : i ≠ 0) (hicur : i ≠ cur)
    (hfind : files.find? (fun p => jEqInt (.num i) (↑p.inode)) = some old)
    (hoff : 0 ≤ off)
    (hp : parseContent old.content off.toNat = .ok rsOld) :
    rotationStep files (.obj [("inode", .num i), ("offset", .num off)]) cur w =
      (.ok (rsOld, .obj [("inode", .num cur), ("offset", .num 0)]),
       { w with durable := writeAll (w.durable ++ w.pending) rsOld, pending := [] }) := by
  have hdrain := rotationDrain_run files old w i off rsOld hs hfind hoff hp
  have hcond : (jTruthy (JVal.num i) && !jEqInt (JVal.num i) cur) = true := by
    simp [jTruthy, jEqInt, hi, hicur]
  simp only [rotationStep, jGet_inode, hcond, if_true, hdrain, jSet_inode, jSet_offset]

/-- **C1**: when the stored identity is set and differs from the active
file's identity and a globbed file with the stored identity exists, the pass
ingests the old file from the stored offset through EOF, then the active
file from offset 0; the emitted records are exactly the parse of both
suffixes in that order, and the persisted state holds the active file's
identity with the active file's end-of-pass offset (the old file's final
offset is discarded). -/
theorem rotation_no_data_loss (files : List LogFile) (latest old : LogFile)
    (w : World) (i off : Int) (rsOld rsNew : List LogRecord)
    (hs : w.failScript = [])
    (hsf : w.stateFile = .parsed (.obj [("inode", .num i), ("offset", .num off)]))
    (hsel : select_latest_log files = .ok latest)
    (hi : i ≠ 0)
    (hrot : i ≠ (latest.inode : Int))
    (hfind : files.find? (fun p => jEqInt (.num i) (↑p.inode)) = some old)
    (hoff : 0 ≤ off)
    (hOld : parseContent old.content off.toNat = .ok rsOld)
    (hNew : parseContent latest.content (0 : Int).toNat = .ok rsNew) :
    (mainRun files w).1 = .ok (rsOld ++ rsNew) ∧
    (mainRun files w).2.stateFile = .parsed (.obj
      [("inode", .num (latest.inode : Int)),
       ("offset", .num (latest.content.length : Int))]) := by
  have hconn := get_db_conn_nil hs
  have htab := ensure_table_nil hs
  generalize hW2 : ({ w with durable := w.durable ++ w.pending, pending := [] } : World) = w2 at htab
  have hs2 : w2.failScript = [] := by rw [← hW2]; exact hs
  have hrotstep := rotationStep_rot files old w2 i off (↑latest.inode) rsOld hs2 hi
    hrot hfind hoff hOld
  generalize hW3 : ({ w2 with durable := (writeAll (w2.durable ++ w2.pending) rsOld), pending := [] } : World) = w3 at hrotstep
  have hs3 : w3.failScript = [] := by rw [← hW3]; exact hs2
  obtain ⟨d2, hpf2, _⟩ := process_file_ok latest.content 0 w3 rsNew hs3 (le_refl 0) hNew
  generalize hW4 : ({ w3 with durable := d2, pending := [] } : World) = w4 at hpf2
  have hmax : max (0 : Int) (latest.content.length : Int) = (latest.content.length : Int) :=
    max_eq_right (Int.natCast_nonneg _)
  have heq : mainRun files w =
      (.ok (rsOld ++ rsNew),
       save_state (.obj [("inode", .num (latest.inode : Int)),
         ("offset", .num (max 0 (latest.content.length : Int)))]) w4) := by
    simp only [mainRun, hsf, load_state, hconn, htab, hsel, hrotstep, jGet_inode,
      jIsNull, Bool.false_eq_true, if_false, jGet_offset, jToInt, hpf2, jSet_offset]
  rw [heq]
  refine ⟨rfl, ?_⟩
  show FileRead.parsed (.obj [("inode", .num (latest.inode : Int)),
    ("offset", .num (max 0 (latest.content.length : Int)))]) = _
  rw [hmax]

/-- Witness for C1: two empty files, identities 7 (stored, rotated out) and
9 (active). -/
theorem rotation_no_data_loss_witness :
    (⟨.parsed (.obj [("inode", .num 7), ("offset", .num 0)]), [], [], []⟩ : World).failScript = [] ∧
    (⟨.parsed (.obj [("inode", .num 7), ("offset", .num 0)]), [], [], []⟩ : World).stateFile
      = .parsed (.obj [("inode", .num 7), ("offset", .num 0)]) ∧
    select_latest_log [⟨7, 1, []⟩, ⟨9, 2, []⟩] = .ok ⟨9, 2, []⟩ ∧
    (7 : Int) ≠ 0 ∧
    (7 : Int) ≠ ((9 : Nat) : Int) ∧
    [(⟨7, 1, []⟩ : LogFile), ⟨9, 2, []⟩].find?
      (fun p => jEqInt (.num 7) (↑p.inode)) = some ⟨7, 1, []⟩ ∧
    parseContent ([] : List Char) (0 : Int).toNat = .ok [] ∧
    ((mainRun [⟨7, 1, []⟩, ⟨9, 2, []⟩]
        ⟨.parsed (.obj [("inode", .num 7), ("offset", .num 0)]), [], [], []⟩).1
          = .ok ([] ++ []) ∧
     (mainRun [⟨7, 1, []⟩, ⟨9, 2, []⟩]
        ⟨.parsed (.obj [("inode", .num 7), ("offset", .num 0)]), [], [], []⟩).2.stateFile
          = .parsed (.obj [("inode", .num ((9 : Nat) : Int)),
              ("offset", .num (([] : List Char).length : Int))])) :=
  ⟨rfl, rfl, rfl, by decide, by decide, by decide, rfl,
   rotation_no_data_loss [⟨7, 1, []⟩, ⟨9, 2, []⟩] ⟨9, 2, []⟩ ⟨7, 1, []⟩
     ⟨.parsed (.obj [("inode", .num 7), ("offset", .num 0)]), [], [], []⟩
     7 0 [] [] rfl rfl rfl (by decide) (by decide) (by decide) (by decide) rfl rfl⟩

end NginxLogsDB
